import Mathlib

/-!
Shallow embedding of the position-reconciliation logic of the Kanban board
client (src/pages/Board.tsx, src/components/KanbanBoard.tsx).

Conventions of the embedding:
* Record ids (database uuid strings) are modelled as `Nat`; the code only ever
  compares them with strict equality.
* `position` values are modelled as `Nat`: every position the engine writes is
  a zero-based array index, and fetched records carry the database integers.
* JavaScript `Array.prototype.sort` with the comparator
  `(a, b) => a.position - b.position` is a stable sort keyed on `position`;
  it is modelled by Mathlib's stable `List.insertionSort` on the relation
  `a.position ≤ b.position`.
* The `description` payload field of a card and the `board_id` field of a
  list are carried verbatim by every operation below exactly like `title`,
  so a single `title` field stands for the non-ordering payload of a record.
* React state updates (`setCards`, `setLists`) are modelled as explicit
  state passing: each operation returns the new collection.
-/

/-- A card record (interface `Card` in Board.tsx): id, payload, integer
`position`, parent list reference `list_id`. -/
structure Card where
  id : Nat
  title : String
  position : Nat
  list_id : Nat
deriving DecidableEq, Repr

/-- A list record (interface `List` in Board.tsx; named `BList` because `List`
is taken in Lean): id, payload, integer `position`. The constant `board_id`
field of the single board in view is omitted. -/
structure BList where
  id : Nat
  title : String
  position : Nat
deriving DecidableEq, Repr

/-- One entry of the per-move card update batch, the object literal
`{ id, list_id, position }` pushed into `cardUpdates` in `optimisticMoveCard`. -/
structure CardUpdate where
  id : Nat
  list_id : Nat
  position : Nat
deriving DecidableEq, Repr

/-- One entry of the per-move list update batch, the object literal
`{ id, position }` built in `optimisticMoveList`. -/
structure ListUpdate where
  id : Nat
  position : Nat
deriving DecidableEq, Repr

/-- Comparator relation of `(a, b) => a.position - b.position` on cards. -/
def cardLE (a b : Card) : Prop := a.position ≤ b.position

instance : DecidableRel cardLE := fun a b => inferInstanceAs (Decidable (a.position ≤ b.position))

instance : IsTotal Card cardLE := ⟨fun a b => Nat.le_total a.position b.position⟩

instance : IsTrans Card cardLE := ⟨fun _ _ _ => Nat.le_trans⟩

/-- Comparator relation of the same sort on lists. -/
def listLE (a b : BList) : Prop := a.position ≤ b.position

instance : DecidableRel listLE := fun a b => inferInstanceAs (Decidable (a.position ≤ b.position))

instance : IsTotal BList listLE := ⟨fun a b => Nat.le_total a.position b.position⟩

instance : IsTrans BList listLE := ⟨fun _ _ _ => Nat.le_trans⟩

/-- `cards.sort((a, b) => a.position - b.position)`: stable sort by position. -/
def sortCards (l : List Card) : List Card := l.insertionSort cardLE

/-- `lists.sort((a, b) => a.position - b.position)`: stable sort by position. -/
def sortLists (l : List BList) : List BList := l.insertionSort listLE

/-- The cards of one container: `cards.filter(c => c.list_id === lid)`. -/
def cardsOf (cards : List Card) (lid : Nat) : List Card :=
  cards.filter (fun c => c.list_id == lid)

/-- `cards.find(c => c.id === cardId)`. -/
def findCard (cards : List Card) (cardId : Nat) : Option Card :=
  cards.find? (fun c => c.id == cardId)

/-- `lists.find(l => l.id === listId)`. -/
def findBList (lists : List BList) (listId : Nat) : Option BList :=
  lists.find? (fun l => l.id == listId)

/-- The destination-sibling adjustment in the cross-list branch of
`optimisticMoveCard`: `index >= newPosition ? index + 1 : index`. -/
def shiftPos (t i : Nat) : Nat := if t ≤ i then i + 1 else i

/-- The `targetListCards.forEach((card, index) => ...)` loop of
`optimisticMoveCard`, carrying the running index explicitly: each destination
sibling gets position `shiftPos t index` in its own list. -/
def tgtUpds (t : Nat) : Nat → List Card → List CardUpdate
  | _, [] => []
  | i, c :: cs => ⟨c.id, c.list_id, shiftPos t i⟩ :: tgtUpds t (i + 1) cs

/-- The `sourceListCards.forEach((card, index) => ...)` loop of
`optimisticMoveCard`: each remaining source sibling is reindexed to its index. -/
def srcUpds : Nat → List Card → List CardUpdate
  | _, [] => []
  | i, c :: cs => ⟨c.id, c.list_id, i⟩ :: srcUpds (i + 1) cs

/-- The `reorderedCards.forEach((card, index) => if (card.position !== index) push)`
loop of the same-list branch of `optimisticMoveCard`: an update is emitted only
for cards whose position differs from their new index. -/
def reorderUpds : Nat → List Card → List CardUpdate
  | _, [] => []
  | i, c :: cs =>
    if c.position = i then reorderUpds (i + 1) cs
    else ⟨c.id, c.list_id, i⟩ :: reorderUpds (i + 1) cs

/-- Splice-style insertion: `arr.splice(j, 0, x)` inserts `x` at index `j`,
clamping `j` to the array length (insertion past the end appends). -/
def insertAt (j : Nat) (x : α) (l : List α) : List α :=
  l.take j ++ x :: l.drop j

/-- `arrayMove` from the dnd-kit library as used by the source: remove the
element at index `i`, then splice it back in at index `j` of the shortened
array. Both call sites guard `i` to be the index of a present element, so the
out-of-range fallback (JavaScript would splice in `undefined`) is never hit. -/
def arrayMove (l : List α) (i j : Nat) : List α :=
  match l.get? i with
  | none => l
  | some x => insertAt j x (l.eraseIdx i)

/-- The `setCards` functional update of `optimisticMoveCard`:
`prevCards.map(card => { const update = cardUpdates.find(u => u.id === card.id);
return update ? { ...card, list_id: update.list_id, position: update.position } : card })`. -/
def applyCardUpd (ups : List CardUpdate) (c : Card) : Card :=
  match ups.find? (fun u => u.id == c.id) with
  | some u => { c with list_id := u.list_id, position := u.position }
  | none => c

/-- The `setLists` functional update of `optimisticMoveList` (before the final
sort): replace the position of each list that has a matching update. -/
def applyListUpd (ups : List ListUpdate) (l : BList) : BList :=
  match ups.find? (fun u => u.id == l.id) with
  | some u => { l with position := u.position }
  | none => l

/-- A container in its current display order:
`cards.filter(c => c.list_id === lid).sort((a, b) => a.position - b.position)`. -/
def sortedContainer (cards : List Card) (lid : Nat) : List Card :=
  sortCards (cardsOf cards lid)

/-- The `sourceListCards` of the cross-list branch of `optimisticMoveCard`:
the source container without the moved card, in display order. -/
def sourceSibs (cards : List Card) (srcList cid : Nat) : List Card :=
  sortCards (cards.filter (fun c => c.list_id == srcList && c.id != cid))

/-- The full update batch of the cross-list branch of `optimisticMoveCard`:
the moved card first, then every destination sibling (shifted at and above the
target index), then every remaining source sibling (reindexed densely). -/
def crossUps (cards : List Card) (cid B t srcList : Nat) : List CardUpdate :=
  ⟨cid, B, t⟩ ::
    (tgtUpds t 0 (sortedContainer cards B) ++ srcUpds 0 (sourceSibs cards srcList cid))

/-- The update batch of the same-list branch of `optimisticMoveCard`:
rotate the container's display order with `arrayMove` and emit an update for
every card whose position differs from its new index. -/
def sameUps (cards : List Card) (cid t lid : Nat) : List CardUpdate :=
  reorderUpds 0
    (arrayMove (sortedContainer cards lid)
      ((sortedContainer cards lid).findIdx (fun c => c.id == cid)) t)

/-- `optimisticMoveCard(cardId, newListId, newPosition)` of Board.tsx.
Returns `none` when the card is unknown (the function returns `undefined`
before touching any state); otherwise returns the computed update batch
together with the new in-memory card collection installed by `setCards`. -/
def optimisticMoveCard (cards : List Card) (cardId newListId newPosition : Nat) :
    Option (List CardUpdate × List Card) :=
  match cards.find? (fun c => c.id == cardId) with
  | none => none
  | some cardToMove =>
    let ups :=
      if cardToMove.list_id ≠ newListId then
        crossUps cards cardId newListId newPosition cardToMove.list_id
      else sameUps cards cardId newPosition cardToMove.list_id
    some (ups, cards.map (applyCardUpd ups))

/-- The `reorderedLists.map((list, index) => ({ id: list.id, position: index }))`
step of `optimisticMoveList`, carrying the running index explicitly. -/
def listUpdsAll : Nat → List BList → List ListUpdate
  | _, [] => []
  | i, l :: ls => ⟨l.id, i⟩ :: listUpdsAll (i + 1) ls

/-- The `arrayMove(sortedLists, oldIndex, newPosition)` step of
`optimisticMoveList`: the board's lists in display order, rotated. -/
def listReordered (lists : List BList) (listId newPosition : Nat) : List BList :=
  arrayMove (sortLists lists) ((sortLists lists).findIdx (fun l => l.id == listId)) newPosition

/-- The update batch of `optimisticMoveList`: assign each list its new index,
then keep only the entries whose position differs from the original record. -/
def listMoveUps (lists : List BList) (listId newPosition : Nat) : List ListUpdate :=
  (listUpdsAll 0 (listReordered lists listId newPosition)).filter (fun u =>
    match lists.find? (fun l => l.id == u.id) with
    | some orig => orig.position != u.position
    | none => false)

/-- `optimisticMoveList(listId, newPosition)` of Board.tsx. Returns `none`
when the list is unknown or (`oldIndex === -1`) absent from the sorted copy;
otherwise the filtered update batch and the new sorted list collection. -/
def optimisticMoveList (lists : List BList) (listId newPosition : Nat) :
    Option (List ListUpdate × List BList) :=
  match lists.find? (fun l => l.id == listId) with
  | none => none
  | some _ =>
    if (sortLists lists).findIdx (fun l => l.id == listId) = (sortLists lists).length then none
    else
      some (listMoveUps lists listId newPosition,
        sortLists (lists.map (applyListUpd (listMoveUps lists listId newPosition))))

/-- Outcome of a full `moveCard` call: the in-memory collections afterwards and
the per-item durable update requests that were dispatched. -/
structure MoveOutcome where
  lists : List BList
  cards : List Card
  issued : List CardUpdate
deriving DecidableEq, Repr

/-- `updateCardPositions` of Board.tsx: one update request per batch entry, all
dispatched together and awaited (`Promise.all`); the call throws exactly when
at least one request reports an error. `fail` models the per-request backend
outcome; the result is `true` on overall success. -/
def updateCardPositions (fail : CardUpdate → Bool) (ups : List CardUpdate) : Bool :=
  !(ups.any fail)

/-- `moveCard(cardId, newListId, newPosition)` of Board.tsx, with the
asynchronous backend linearized: run the optimistic update; if it produced no
batch, return without writing; otherwise dispatch the whole batch once, and on
failure replace both collections wholesale with `fetchBoardData`'s result
(`fetchedLists`, `fetchedCards`). The failed batch is not dispatched again. -/
def moveCard (fail : CardUpdate → Bool) (fetchedLists : List BList) (fetchedCards : List Card)
    (lists : List BList) (cards : List Card) (cardId newListId newPosition : Nat) :
    MoveOutcome :=
  match optimisticMoveCard cards cardId newListId newPosition with
  | none => ⟨lists, cards, []⟩
  | some (ups, newCards) =>
    if ups.isEmpty then ⟨lists, newCards, []⟩
    else if updateCardPositions fail ups then ⟨lists, newCards, ups⟩
    else ⟨fetchedLists, fetchedCards, ups⟩

/-- A realtime change-feed event for the cards table, as dispatched on in the
cards channel handler of `setupRealtimeSubscriptions`. -/
inductive CardEvent where
  | insert (c : Card)
  | update (c : Card)
  | delete (id : Nat)
deriving DecidableEq, Repr

/-- A realtime change-feed event for the lists table. -/
inductive ListEvent where
  | insert (l : BList)
  | update (l : BList)
  | delete (id : Nat)
deriving DecidableEq, Repr

/-- The cards channel handler: INSERT appends unless the id is already present
and re-sorts; UPDATE replaces the full record with the matching id and
re-sorts; DELETE removes the record. -/
def applyCardEvent (cards : List Card) : CardEvent → List Card
  | .insert c =>
    if cards.any (fun x => x.id == c.id) then cards
    else sortCards (cards ++ [c])
  | .update c => sortCards (cards.map (fun x => if x.id == c.id then c else x))
  | .delete i => cards.filter (fun x => x.id != i)

/-- The lists channel handler, effect on the list collection. -/
def applyListEvent (lists : List BList) : ListEvent → List BList
  | .insert l =>
    if lists.any (fun x => x.id == l.id) then lists
    else sortLists (lists ++ [l])
  | .update l => sortLists (lists.map (fun x => if x.id == l.id then l else x))
  | .delete i => lists.filter (fun x => x.id != i)

/-- The lists channel handler, effect on the card collection: a list DELETE
cascades, removing every card held locally for that list. -/
def applyListEventCards (cards : List Card) : ListEvent → List Card
  | .delete i => cards.filter (fun c => c.list_id != i)
  | _ => cards

/-- The in-memory working copy: the two ordered collections of the board view. -/
structure BoardState where
  lists : List BList
  cards : List Card
deriving DecidableEq, Repr

/-- One user-initiated move, as reported by the drag layer. -/
inductive MoveOp where
  | card (cardId newListId newPosition : Nat)
  | list (listId newPosition : Nat)
deriving DecidableEq, Repr

/-- Apply one move to the working copy via the optimistic update functions
(an unknown item leaves the state unchanged, as in the source). -/
def applyMoveOp (s : BoardState) : MoveOp → BoardState
  | .card cid lid pos =>
    match optimisticMoveCard s.cards cid lid pos with
    | none => s
    | some (_, cs) => { s with cards := cs }
  | .list lid pos =>
    match optimisticMoveList s.lists lid pos with
    | none => s
    | some (_, ls) => { s with lists := ls }

/-- A batch of position values is dense when it is exactly `0, 1, ..., n-1`,
each occurring once (as a multiset). -/
def DenseNat (ps : List Nat) : Prop := ps.Perm (List.range ps.length)

instance : DecidablePred DenseNat := fun ps => List.decidablePerm ps (List.range ps.length)

/-- Density for one card container. -/
def DenseCards (cs : List Card) : Prop := DenseNat (cs.map (fun c => c.position))

instance : DecidablePred DenseCards := fun cs =>
  List.decidablePerm (cs.map (fun c : Card => c.position))
    (List.range (cs.map (fun c : Card => c.position)).length)

/-- The core invariant of the spec: every container of the working copy
(each list's cards, and the board's lists) holds a dense position sequence. -/
def BoardDense (s : BoardState) : Prop :=
  DenseNat (s.lists.map (fun l => l.position)) ∧
    ∀ lid, DenseCards (cardsOf s.cards lid)

/-- Record ids are pairwise distinct (database primary keys). -/
def NodupIds (s : BoardState) : Prop :=
  (s.cards.map (fun c => c.id)).Nodup ∧ (s.lists.map (fun l => l.id)).Nodup

/-- A card move is in range when its target index does not exceed the size of
the destination container, the moved card excluded; list moves and moves of
unknown cards are unconstrained. -/
def opInRange (s : BoardState) : MoveOp → Prop
  | .card cid lid pos =>
    ∀ c ∈ s.cards, c.id = cid → c.list_id ≠ lid → pos ≤ (cardsOf s.cards lid).length
  | .list _ _ => True

instance (s : BoardState) : ∀ op : MoveOp, Decidable (opInRange s op)
  | .card cid lid pos =>
    inferInstanceAs (Decidable (∀ c ∈ s.cards, c.id = cid → c.list_id ≠ lid →
      pos ≤ (cardsOf s.cards lid).length))
  | .list _ _ => inferInstanceAs (Decidable True)

/-- Every move of the sequence is in range at the state it is applied to. -/
def InRangeSeq : BoardState → List MoveOp → Prop
  | _, [] => True
  | s, op :: ops => opInRange s op ∧ InRangeSeq (applyMoveOp s op) ops

/-- Modelled from the spec: a re-sort keyed on `position` with id as a
tiebreak, the ordering the specification describes for remote update merges.
Used only to compare against the ordering the code actually produces. -/
def cardLEByPosId (a b : Card) : Prop :=
  a.position < b.position ∨ (a.position = b.position ∧ a.id ≤ b.id)

instance : DecidableRel cardLEByPosId := fun a b =>
  inferInstanceAs (Decidable (a.position < b.position ∨ (a.position = b.position ∧ a.id ≤ b.id)))

/-- Modelled from the spec: sorting by position with id tiebreak. -/
def sortCardsSpec (l : List Card) : List Card := l.insertionSort cardLEByPosId

/-- The index rotation of a same-container reorder described by the spec:
moving the element at index `i` to index `j` shifts every index strictly
between them by one towards the vacated slot and fixes all others. -/
def rotPos (i j q : Nat) : Nat :=
  if j ≤ q ∧ q < i then q + 1 else if i < q ∧ q ≤ j then q - 1 else q

/-!  ### Basic lemmas about the embedded primitives -/

theorem insertAt_perm (j : Nat) (x : α) (l : List α) : (insertAt j x l).Perm (x :: l) := by
  have h := @List.perm_middle α x (l.take j) (l.drop j)
  simpa [insertAt, List.take_append_drop] using h

theorem cons_eraseIdx_perm {x : α} :
    ∀ (l : List α) (i : Nat), l.get? i = some x → l.Perm (x :: l.eraseIdx i)
  | a :: t, 0, h => by
    have ha : a = x := by simpa using h
    subst ha
    simp [List.eraseIdx]
  | a :: t, i + 1, h => by
    have h' : t.get? i = some x := by simpa using h
    have hp := cons_eraseIdx_perm t i h'
    have e : (a :: t).eraseIdx (i + 1) = a :: t.eraseIdx i := rfl
    rw [e]
    exact (hp.cons a).trans (List.Perm.swap x a _)

theorem arrayMove_perm (l : List α) (i j : Nat) : (arrayMove l i j).Perm l := by
  unfold arrayMove
  cases h : l.get? i with
  | none => exact List.Perm.refl l
  | some x => exact (insertAt_perm j x _).trans (cons_eraseIdx_perm l i h).symm

theorem sortCards_perm (l : List Card) : (sortCards l).Perm l :=
  List.perm_insertionSort _ l

theorem sortLists_perm (l : List BList) : (sortLists l).Perm l :=
  List.perm_insertionSort _ l

/-- Two members of a list with pairwise distinct keys that share a key are
equal. -/
theorem key_unique {α β : Type} (f : α → β) {l : List α} (hnd : (l.map f).Nodup)
    {x y : α} (hx : x ∈ l) (hy : y ∈ l) (hxy : f x = f y) : x = y := by
  induction l with
  | nil => cases hx
  | cons a t ih =>
    simp only [List.map_cons, List.nodup_cons] at hnd
    rcases List.mem_cons.mp hx with rfl | hx' <;> rcases List.mem_cons.mp hy with rfl | hy'
    · rfl
    · exact absurd (hxy ▸ List.mem_map_of_mem f hy') hnd.1
    · exact absurd (hxy ▸ List.mem_map_of_mem f hx') hnd.1
    · exact ih hnd.2 hx' hy'

/-- Searching a keyed list for the key of one of its members finds that
member, when keys are pairwise distinct. -/
theorem find?_key_self (f : α → Nat) {l : List α} (hnd : (l.map f).Nodup)
    {d : α} (hd : d ∈ l) : l.find? (fun x => f x == f d) = some d := by
  induction l with
  | nil => cases hd
  | cons a t ih =>
    simp only [List.map_cons, List.nodup_cons] at hnd
    rw [List.find?_cons]
    cases hfa : (f a == f d) with
    | true =>
      have hfa' : f a = f d := by simpa using hfa
      have ha : a = d := by
        rcases List.mem_cons.mp hd with rfl | hd'
        · rfl
        · exact absurd (by rw [hfa']; exact List.mem_map_of_mem f hd') hnd.1
      simp [ha]
    | false =>
      have hd' : d ∈ t := by
        rcases List.mem_cons.mp hd with rfl | hd'
        · simp at hfa
        · exact hd'
      exact ih hnd.2 hd'

/-!  ### C10: moving an unknown card is a complete no-op -/

/-- C10: for every cardId matching no in-memory card, `optimisticMoveCard`
returns no update set and `moveCard` leaves the collections unchanged and
issues no durable write request. -/
theorem moveCard_unknown_noop (fail : CardUpdate → Bool) (fetchedLists : List BList)
    (fetchedCards : List Card) (lists : List BList) (cards : List Card)
    (cid lid pos : Nat) (h : ∀ c ∈ cards, c.id ≠ cid) :
    optimisticMoveCard cards cid lid pos = none ∧
      moveCard fail fetchedLists fetchedCards lists cards cid lid pos =
        ⟨lists, cards, []⟩ := by
  have hf : cards.find? (fun c => c.id == cid) = none := by
    rw [List.find?_eq_none]
    intro x hx
    simpa using h x hx
  have h1 : optimisticMoveCard cards cid lid pos = none := by
    unfold optimisticMoveCard
    rw [hf]
  exact ⟨h1, by simp [moveCard, h1]⟩

/-- Witness for C10 at a concrete state: card id 2 is absent. -/
theorem moveCard_unknown_noop_witness :
    optimisticMoveCard [⟨1, "a", 0, 1⟩] 2 3 0 = none ∧
      moveCard (fun _ => false) [] [] [] [⟨1, "a", 0, 1⟩] 2 3 0 =
        ⟨[], [⟨1, "a", 0, 1⟩], []⟩ :=
  moveCard_unknown_noop (fun _ => false) [] [] [] [⟨1, "a", 0, 1⟩] 2 3 0 (by decide)

/-!  ### C9: duplicate-insert idempotence -/

/-- C9: an insert event whose record id is already present leaves the
collection unchanged, for cards and for lists alike, and applying the same
insert event twice equals applying it once. -/
theorem insertEvent_dedup (cards : List Card) (c : Card) (lists : List BList) (l : BList) :
    ((∃ d ∈ cards, d.id = c.id) → applyCardEvent cards (.insert c) = cards) ∧
      applyCardEvent (applyCardEvent cards (.insert c)) (.insert c) =
        applyCardEvent cards (.insert c) ∧
      ((∃ m ∈ lists, m.id = l.id) → applyListEvent lists (.insert l) = lists) ∧
      applyListEvent (applyListEvent lists (.insert l)) (.insert l) =
        applyListEvent lists (.insert l) := by
  have hc : ∀ cs : List Card, (∃ d ∈ cs, d.id = c.id) → applyCardEvent cs (.insert c) = cs := by
    rintro cs ⟨d, hd, hid⟩
    have ha : cs.any (fun x => x.id == c.id) = true :=
      List.any_eq_true.mpr ⟨d, hd, by simpa using hid⟩
    simp [applyCardEvent, ha]
  have hl : ∀ ls : List BList, (∃ m ∈ ls, m.id = l.id) → applyListEvent ls (.insert l) = ls := by
    rintro ls ⟨m, hm, hid⟩
    have ha : ls.any (fun x => x.id == l.id) = true :=
      List.any_eq_true.mpr ⟨m, hm, by simpa using hid⟩
    simp [applyListEvent, ha]
  refine ⟨hc cards, ?_, hl lists, ?_⟩
  · by_cases h : cards.any (fun x => x.id == c.id) = true
    · have he : applyCardEvent cards (.insert c) = cards := by simp [applyCardEvent, h]
      rw [he, he]
    · have he : applyCardEvent cards (.insert c) = sortCards (cards ++ [c]) := by
        simp [applyCardEvent, h]
      refine hc _ ⟨c, ?_, rfl⟩
      rw [he]
      exact (List.mem_insertionSort _).mpr (List.mem_append_right _ (List.mem_singleton.mpr rfl))
  · by_cases h : lists.any (fun x => x.id == l.id) = true
    · have he : applyListEvent lists (.insert l) = lists := by simp [applyListEvent, h]
      rw [he, he]
    · have he : applyListEvent lists (.insert l) = sortLists (lists ++ [l]) := by
        simp [applyListEvent, h]
      refine hl _ ⟨l, ?_, rfl⟩
      rw [he]
      exact (List.mem_insertionSort _).mpr (List.mem_append_right _ (List.mem_singleton.mpr rfl))

/-- Witness for C9 at a concrete state: a second insert of card id 1 and list
id 7 is a no-op. -/
theorem insertEvent_dedup_witness :
    (applyCardEvent [⟨1, "a", 0, 1⟩] (.insert ⟨1, "echo", 9, 2⟩) = [⟨1, "a", 0, 1⟩]) ∧
      (applyListEvent [⟨7, "L", 0⟩] (.insert ⟨7, "echo", 3⟩) = [⟨7, "L", 0⟩]) :=
  ⟨(insertEvent_dedup [⟨1, "a", 0, 1⟩] ⟨1, "echo", 9, 2⟩ [⟨7, "L", 0⟩] ⟨7, "echo", 3⟩).1
      ⟨⟨1, "a", 0, 1⟩, by decide, rfl⟩,
    (insertEvent_dedup [⟨1, "a", 0, 1⟩] ⟨1, "echo", 9, 2⟩ [⟨7, "L", 0⟩] ⟨7, "echo", 3⟩).2.2.1
      ⟨⟨7, "L", 0⟩, by decide, rfl⟩⟩

/-!  ### C8: batch-write failure triggers full resync with no retry -/

/-- C8: the durable write of a move is dispatched as one request per changed
item, the whole batch exactly once; if any request of the batch fails, the
engine replaces both in-memory collections wholesale with the result of the
full re-fetch, and the batch is not dispatched again. -/
theorem moveCard_failure_resync (fail : CardUpdate → Bool) (fetchedLists : List BList)
    (fetchedCards : List Card) (lists : List BList) (cards : List Card)
    (cid lid pos : Nat) (ups : List CardUpdate) (newCards : List Card)
    (h : optimisticMoveCard cards cid lid pos = some (ups, newCards))
    (hfail : ∃ u ∈ ups, fail u = true) :
    moveCard fail fetchedLists fetchedCards lists cards cid lid pos =
      ⟨fetchedLists, fetchedCards, ups⟩ := by
  have hne : ups.isEmpty = false := by
    rcases hfail with ⟨u, hu, _⟩
    rcases ups with _ | _
    · cases hu
    · rfl
  have hany : ups.any fail = true := List.any_eq_true.mpr hfail
  simp [moveCard, h, hne, updateCardPositions, hany]

/-- Witness for C8: a cross-list move whose two-request batch fails wholesale
replaces the state with the fetched collections. -/
theorem moveCard_failure_resync_witness :
    moveCard (fun _ => true) [⟨9, "L", 0⟩] [] [⟨8, "M", 0⟩]
        [⟨10, "a", 0, 1⟩, ⟨11, "b", 1, 1⟩] 11 2 0 =
      ⟨[⟨9, "L", 0⟩], [], [⟨11, 2, 0⟩, ⟨10, 1, 0⟩]⟩ :=
  moveCard_failure_resync (fun _ => true) [⟨9, "L", 0⟩] [] [⟨8, "M", 0⟩]
    [⟨10, "a", 0, 1⟩, ⟨11, "b", 1, 1⟩] 11 2 0 [⟨11, 2, 0⟩, ⟨10, 1, 0⟩]
    [⟨10, "a", 0, 1⟩, ⟨11, "b", 0, 2⟩] (by decide) ⟨⟨11, 2, 0⟩, by decide, rfl⟩

/-!  ### Branch equations for `optimisticMoveCard` -/

theorem optimisticMoveCard_cross_eq (cards : List Card) (cid B t : Nat) (c : Card)
    (hfind : cards.find? (fun x => x.id == cid) = some c) (hB : c.list_id ≠ B) :
    optimisticMoveCard cards cid B t =
      some (crossUps cards cid B t c.list_id,
        cards.map (applyCardUpd (crossUps cards cid B t c.list_id))) := by
  unfold optimisticMoveCard
  rw [hfind]
  simp [hB]

theorem optimisticMoveCard_same_eq (cards : List Card) (cid t : Nat) (c : Card)
    (hfind : cards.find? (fun x => x.id == cid) = some c) :
    optimisticMoveCard cards cid c.list_id t =
      some (sameUps cards cid t c.list_id,
        cards.map (applyCardUpd (sameUps cards cid t c.list_id))) := by
  unfold optimisticMoveCard
  rw [hfind]
  simp

/-!  ### Membership facts about the update builders -/

theorem mem_srcUpds :
    ∀ (i : Nat) (R : List Card) (u : CardUpdate), u ∈ srcUpds i R →
      ∃ d ∈ R, u.id = d.id ∧ u.list_id = d.list_id
  | _, [], u, h => by cases h
  | i, c :: cs, u, h => by
    rcases List.mem_cons.mp h with rfl | h'
    · exact ⟨c, List.mem_cons_self c cs, rfl, rfl⟩
    · obtain ⟨d, hd, h1, h2⟩ := mem_srcUpds (i + 1) cs u h'
      exact ⟨d, List.mem_cons_of_mem c hd, h1, h2⟩

theorem mem_tgtUpds :
    ∀ (t i : Nat) (R : List Card) (u : CardUpdate), u ∈ tgtUpds t i R →
      ∃ d ∈ R, u.id = d.id ∧ u.list_id = d.list_id
  | _, _, [], u, h => by cases h
  | t, i, c :: cs, u, h => by
    rcases List.mem_cons.mp h with rfl | h'
    · exact ⟨c, List.mem_cons_self c cs, rfl, rfl⟩
    · obtain ⟨d, hd, h1, h2⟩ := mem_tgtUpds t (i + 1) cs u h'
      exact ⟨d, List.mem_cons_of_mem c hd, h1, h2⟩

theorem mem_reorderUpds :
    ∀ (i : Nat) (R : List Card) (u : CardUpdate), u ∈ reorderUpds i R →
      ∃ d ∈ R, u.id = d.id ∧ u.list_id = d.list_id ∧ u.position ≠ d.position
  | _, [], u, h => by cases h
  | i, c :: cs, u, h => by
    unfold reorderUpds at h
    by_cases hc : c.position = i
    · rw [if_pos hc] at h
      obtain ⟨d, hd, h1, h2, h3⟩ := mem_reorderUpds (i + 1) cs u h
      exact ⟨d, List.mem_cons_of_mem c hd, h1, h2, h3⟩
    · rw [if_neg hc] at h
      rcases List.mem_cons.mp h with rfl | h'
      · exact ⟨c, List.mem_cons_self c cs, rfl, rfl, fun he => hc he.symm⟩
      · obtain ⟨d, hd, h1, h2, h3⟩ := mem_reorderUpds (i + 1) cs u h'
        exact ⟨d, List.mem_cons_of_mem c hd, h1, h2, h3⟩

/-- `find?` by id commutes with mapping an id-preserving function. -/
theorem find?_map_id (f : Card → Card) (hf : ∀ x, (f x).id = x.id) {cards : List Card}
    {cid : Nat} {c : Card} (h : cards.find? (fun x => x.id == cid) = some c) :
    (cards.map f).find? (fun x => x.id == cid) = some (f c) := by
  induction cards with
  | nil => cases h
  | cons a t ih =>
    rw [List.find?_cons] at h
    rw [List.map_cons, List.find?_cons]
    cases ha : (a.id == cid) with
    | true =>
      rw [ha] at h
      have hfa : ((f a).id == cid) = true := by rw [hf a]; exact ha
      rw [hfa]
      cases h
      rfl
    | false =>
      rw [ha] at h
      have hfa : ((f a).id == cid) = false := by rw [hf a]; exact ha
      rw [hfa]
      exact ih h

theorem applyCardUpd_id (ups : List CardUpdate) (c : Card) :
    (applyCardUpd ups c).id = c.id := by
  unfold applyCardUpd
  cases ups.find? (fun u => u.id == c.id) <;> rfl

theorem applyListUpd_id (ups : List ListUpdate) (l : BList) :
    (applyListUpd ups l).id = l.id := by
  unfold applyListUpd
  cases ups.find? (fun u => u.id == l.id) <;> rfl

/-- A `BoardDense` proof obligation only needs checking at the finitely many
containers that actually hold cards. -/
theorem boardDense_of_mem (s : BoardState)
    (h1 : DenseNat (s.lists.map (fun l => l.position)))
    (h2 : ∀ lid ∈ s.cards.map (fun c => c.list_id), DenseCards (cardsOf s.cards lid)) :
    BoardDense s := by
  refine ⟨h1, fun lid => ?_⟩
  by_cases hmem : lid ∈ s.cards.map (fun c => c.list_id)
  · exact h2 lid hmem
  · have he : cardsOf s.cards lid = [] := by
      rw [cardsOf, List.filter_eq_nil_iff]
      intro a ha hc
      apply hmem
      have hl : a.list_id = lid := by simpa using hc
      exact hl ▸ List.mem_map_of_mem _ ha
    rw [DenseCards, he]
    exact List.Perm.refl _

/-!  ### C4: update-set minimality holds only for same-container moves -/

/-- C4 counterexample: moving card 11 from list 1 to the distinct list 2 emits
the update (10, list 1, position 0) for the source sibling 10, although card
10 already has exactly that container and position. -/
theorem update_set_minimality_cex :
    optimisticMoveCard [⟨10, "a0", 0, 1⟩, ⟨11, "a1", 1, 1⟩] 11 2 0 =
      some ([⟨11, 2, 0⟩, ⟨10, 1, 0⟩], [⟨10, "a0", 0, 1⟩, ⟨11, "a1", 0, 2⟩]) ∧
      (⟨10, 1, 0⟩ : CardUpdate) ∈ ([⟨11, 2, 0⟩, ⟨10, 1, 0⟩] : List CardUpdate) ∧
      findCard [⟨10, "a0", 0, 1⟩, ⟨11, "a1", 1, 1⟩] 10 = some ⟨10, "a0", 0, 1⟩ := by
  decide

/-- C4 amended: the idempotence filter exists only in the same-list branch;
there, every emitted update differs from the card's current position. -/
theorem sameListMove_updates_minimal (cards : List Card) (cid pos : Nat) (c : Card)
    (hfind : cards.find? (fun x => x.id == cid) = some c)
    (ups : List CardUpdate) (cs' : List Card)
    (h : optimisticMoveCard cards cid c.list_id pos = some (ups, cs')) :
    ∀ u ∈ ups, ∃ d ∈ cards, u.id = d.id ∧ u.list_id = d.list_id ∧ u.position ≠ d.position := by
  rw [optimisticMoveCard_same_eq cards cid pos c hfind] at h
  obtain ⟨hups, _⟩ := Prod.mk.injEq .. ▸ Option.some.injEq .. ▸ h
  intro u hu
  rw [← hups] at hu
  obtain ⟨d, hd, h1, h2, h3⟩ := mem_reorderUpds _ _ u hu
  have hd' : d ∈ sortedContainer cards c.list_id := ((arrayMove_perm _ _ _).mem_iff).mp hd
  have hd'' : d ∈ cardsOf cards c.list_id := ((sortCards_perm _).mem_iff).mp hd'
  exact ⟨d, List.mem_of_mem_filter hd'', h1, h2, h3⟩

/-- Witness for C4 amended: in the same-list move of x3 to index 1, the
emitted update of card 11 changes its position. -/
theorem sameListMove_updates_minimal_witness :
    ∃ d ∈ [(⟨10, "x0", 0, 1⟩ : Card), ⟨11, "x1", 1, 1⟩, ⟨12, "x2", 2, 1⟩, ⟨13, "x3", 3, 1⟩],
      (⟨11, 1, 2⟩ : CardUpdate).id = d.id ∧ (⟨11, 1, 2⟩ : CardUpdate).list_id = d.list_id ∧
        (⟨11, 1, 2⟩ : CardUpdate).position ≠ d.position :=
  sameListMove_updates_minimal
    [⟨10, "x0", 0, 1⟩, ⟨11, "x1", 1, 1⟩, ⟨12, "x2", 2, 1⟩, ⟨13, "x3", 3, 1⟩] 13 1
    ⟨13, "x3", 3, 1⟩ (by decide) [⟨13, 1, 1⟩, ⟨11, 1, 2⟩, ⟨12, 1, 3⟩]
    [⟨10, "x0", 0, 1⟩, ⟨11, "x1", 2, 1⟩, ⟨12, "x2", 3, 1⟩, ⟨13, "x3", 1, 1⟩] (by decide)
    ⟨11, 1, 2⟩ (by decide)

/-!  ### C5: the target index is not clamped -/

/-- C5 counterexample: list 2 is empty, yet moving card 11 there with target
index 5 stores position 5, not the position 0 the claim requires for every
target index. -/
theorem targetIndex_clamp_cex :
    cardsOf [⟨10, "a0", 0, 1⟩, ⟨11, "a1", 1, 1⟩] 2 = [] ∧
      optimisticMoveCard [⟨10, "a0", 0, 1⟩, ⟨11, "a1", 1, 1⟩] 11 2 5 =
        some ([⟨11, 2, 5⟩, ⟨10, 1, 0⟩], [⟨10, "a0", 0, 1⟩, ⟨11, "a1", 5, 2⟩]) ∧
      findCard [⟨10, "a0", 0, 1⟩, ⟨11, "a1", 5, 2⟩] 11 = some ⟨11, "a1", 5, 2⟩ ∧
      (5 : Nat) ≠ 0 := by
  decide

/-- C5 amended: no clamping is applied; the moved card stores the target index
exactly as supplied, and an empty destination yields no destination-sibling
updates (so index 0 results only when the caller passes 0, which the drag
handler does by passing the destination size). -/
theorem emptyTarget_no_clamp (cards : List Card) (cid B t : Nat) (c : Card)
    (hfind : cards.find? (fun x => x.id == cid) = some c)
    (hB : c.list_id ≠ B) (hempty : cardsOf cards B = [])
    (ups : List CardUpdate) (cs' : List Card)
    (h : optimisticMoveCard cards cid B t = some (ups, cs')) :
    findCard cs' cid = some { c with list_id := B, position := t } ∧
      ∀ u ∈ ups, u.id ≠ cid → u.list_id ≠ B := by
  have hcid : c.id = cid := by simpa using List.find?_some hfind
  rw [optimisticMoveCard_cross_eq cards cid B t c hfind hB] at h
  obtain ⟨hups, hcs⟩ := Prod.mk.injEq .. ▸ Option.some.injEq .. ▸ h
  have htgt : sortedContainer cards B = [] := by
    rw [sortedContainer, hempty]
    rfl
  have hU : crossUps cards cid B t c.list_id =
      ⟨cid, B, t⟩ :: srcUpds 0 (sourceSibs cards c.list_id cid) := by
    rw [crossUps, htgt]
    rfl
  constructor
  · have hfc : (applyCardUpd (crossUps cards cid B t c.list_id) c) =
        { c with list_id := B, position := t } := by
      unfold applyCardUpd
      rw [hU]
      have : ((⟨cid, B, t⟩ : CardUpdate).id == c.id) = true := by simp [hcid]
      rw [List.find?_cons, this]
    rw [← hcs, findCard]
    rw [find?_map_id _ (applyCardUpd_id _) hfind, hfc]
  · intro u hu hne
    rw [← hups, hU] at hu
    rcases List.mem_cons.mp hu with rfl | hu'
    · exact absurd rfl hne
    · obtain ⟨d, hd, h1, h2⟩ := mem_srcUpds _ _ u hu'
      have hd' : d ∈ cards.filter (fun x => x.list_id == c.list_id && x.id != cid) :=
        ((sortCards_perm _).mem_iff).mp hd
      have hdl : d.list_id = c.list_id := by
        have := List.of_mem_filter hd'
        simp only [Bool.and_eq_true, beq_iff_eq, bne_iff_ne, ne_eq] at this
        exact this.1
      rw [h2, hdl]
      exact hB

/-- Witness for C5 amended, with target index 0 recovering the position-0
special case the spec describes. -/
theorem emptyTarget_no_clamp_witness :
    findCard [⟨10, "a0", 0, 1⟩, ⟨11, "a1", 0, 2⟩] 11 = some ⟨11, "a1", 0, 2⟩ ∧
      ∀ u ∈ ([⟨11, 2, 0⟩, ⟨10, 1, 0⟩] : List CardUpdate), u.id ≠ 11 → u.list_id ≠ 2 :=
  emptyTarget_no_clamp [⟨10, "a0", 0, 1⟩, ⟨11, "a1", 1, 1⟩] 11 2 0 ⟨11, "a1", 1, 1⟩
    (by decide) (by decide) (by decide) [⟨11, 2, 0⟩, ⟨10, 1, 0⟩]
    [⟨10, "a0", 0, 1⟩, ⟨11, "a1", 0, 2⟩] (by decide)

/-!  ### C7: remote update merge replaces the record and re-sorts by position,
but without the id tiebreak the claim describes -/

/-- C7 counterexample: two cards share position 0, in-memory order [id 2, id 1].
An update event for id 2 replaces the record and re-sorts, and the stable sort
keeps id 2 before id 1, whereas a position-then-id sort would put id 1 first. -/
theorem remote_update_tiebreak_cex :
    applyCardEvent [⟨2, "b", 0, 1⟩, ⟨1, "a", 0, 1⟩] (.update ⟨2, "b2", 0, 1⟩) =
      [⟨2, "b2", 0, 1⟩, ⟨1, "a", 0, 1⟩] ∧
      sortCardsSpec ([⟨2, "b", 0, 1⟩, ⟨1, "a", 0, 1⟩].map
          (fun x => if x.id == (2 : Nat) then (⟨2, "b2", 0, 1⟩ : Card) else x)) =
        [⟨1, "a", 0, 1⟩, ⟨2, "b2", 0, 1⟩] ∧
      applyCardEvent [⟨2, "b", 0, 1⟩, ⟨1, "a", 0, 1⟩] (.update ⟨2, "b2", 0, 1⟩) ≠
        sortCardsSpec ([⟨2, "b", 0, 1⟩, ⟨1, "a", 0, 1⟩].map
          (fun x => if x.id == (2 : Nat) then (⟨2, "b2", 0, 1⟩ : Card) else x)) := by
  decide

/-- C7 amended: an update event replaces the full record with the matching id
and re-sorts the collection keyed on position alone; records with equal
positions keep their previous relative order (the sort is stable), with no id
tiebreak. Stated for cards and for lists: the result is a permutation of the
id-wise replaced collection, it is sorted by position, every record with the
event's id is the event's record, and records with other ids survive. -/
theorem updateEvent_replace_resort (cards : List Card) (c : Card)
    (lists : List BList) (l : BList) :
    ((applyCardEvent cards (.update c)).Perm
        (cards.map (fun x => if x.id == c.id then c else x)) ∧
      List.Sorted cardLE (applyCardEvent cards (.update c)) ∧
      (∀ x ∈ applyCardEvent cards (.update c), x.id = c.id → x = c) ∧
      (∀ x ∈ cards, x.id ≠ c.id → x ∈ applyCardEvent cards (.update c))) ∧
    ((applyListEvent lists (.update l)).Perm
        (lists.map (fun x => if x.id == l.id then l else x)) ∧
      List.Sorted listLE (applyListEvent lists (.update l)) ∧
      (∀ x ∈ applyListEvent lists (.update l), x.id = l.id → x = l) ∧
      (∀ x ∈ lists, x.id ≠ l.id → x ∈ applyListEvent lists (.update l))) := by
  constructor
  · refine ⟨List.perm_insertionSort _ _, List.sorted_insertionSort _ _, ?_, ?_⟩
    · intro x hx hid
      have hx' : x ∈ cards.map (fun y => if y.id == c.id then c else y) :=
        (List.mem_insertionSort _).mp hx
      obtain ⟨y, _, hy⟩ := List.mem_map.mp hx'
      by_cases h : y.id = c.id
      · rw [if_pos (by simpa using h)] at hy
        exact hy.symm
      · rw [if_neg (by simpa using h)] at hy
        exact absurd (hy ▸ hid) h
    · intro x hx hid
      refine (List.mem_insertionSort _).mpr (List.mem_map.mpr ⟨x, hx, ?_⟩)
      rw [if_neg (by simpa using hid)]
  · refine ⟨List.perm_insertionSort _ _, List.sorted_insertionSort _ _, ?_, ?_⟩
    · intro x hx hid
      have hx' : x ∈ lists.map (fun y => if y.id == l.id then l else y) :=
        (List.mem_insertionSort _).mp hx
      obtain ⟨y, _, hy⟩ := List.mem_map.mp hx'
      by_cases h : y.id = l.id
      · rw [if_pos (by simpa using h)] at hy
        exact hy.symm
      · rw [if_neg (by simpa using h)] at hy
        exact absurd (hy ▸ hid) h
    · intro x hx hid
      refine (List.mem_insertionSort _).mpr (List.mem_map.mpr ⟨x, hx, ?_⟩)
      rw [if_neg (by simpa using hid)]

/-- Witness for C7 amended: a record with a different id survives the merge. -/
theorem updateEvent_replace_resort_witness :
    (⟨1, "a", 0, 1⟩ : Card) ∈
      applyCardEvent [⟨2, "b", 0, 1⟩, ⟨1, "a", 0, 1⟩] (.update ⟨2, "b2", 0, 1⟩) :=
  (updateEvent_replace_resort [⟨2, "b", 0, 1⟩, ⟨1, "a", 0, 1⟩] ⟨2, "b2", 0, 1⟩
      [] ⟨0, "", 0⟩).1.2.2.2 ⟨1, "a", 0, 1⟩ (by decide) (by decide)

/-!  ### Sorted containers and density -/

theorem sortCards_sorted (l : List Card) : List.Sorted cardLE (sortCards l) :=
  List.sorted_insertionSort _ l

/-- In a dense container, the display order lists positions `0, 1, ..., n-1`
verbatim. -/
theorem map_position_sortCards {T : List Card} (hd : DenseCards T) :
    (sortCards T).map (fun c => c.position) = List.range T.length := by
  have hd' : (T.map (fun c => c.position)).Perm (List.range T.length) := by
    have h := hd
    rw [DenseCards, DenseNat, List.length_map] at h
    exact h
  have hperm : ((sortCards T).map (fun c => c.position)).Perm (List.range T.length) :=
    ((sortCards_perm T).map _).trans hd'
  have hs1 : List.Sorted (fun a b : Nat => a ≤ b) ((sortCards T).map (fun c => c.position)) :=
    List.Pairwise.map _ (fun _ _ h => h) (sortCards_sorted T)
  exact List.eq_of_perm_of_sorted hperm hs1 (List.sorted_le_range _)

/-- In a dense container, the card at display index `k` has position `k`. -/
theorem position_sortCards_getElem {T : List Card} (hd : DenseCards T)
    {k : Nat} (hk : k < (sortCards T).length) : (sortCards T)[k].position = k := by
  have hkm : k < ((sortCards T).map (fun c => c.position)).length := by
    simpa using hk
  have h1 : (sortCards T)[k].position = ((sortCards T).map (fun c => c.position))[k] :=
    (List.getElem_map _).symm
  rw [h1, List.getElem_of_eq (map_position_sortCards hd) hkm, List.getElem_range]

/-- Ids of a sorted filtered card collection inherit distinctness. -/
theorem nodup_ids_sortCards (p : Card → Bool) {cards : List Card}
    (hnd : (cards.map (fun c => c.id)).Nodup) :
    ((sortCards (cards.filter p)).map (fun c => c.id)).Nodup := by
  have h1 : ((cards.filter p).map (fun c => c.id)).Nodup :=
    ((List.filter_sublist cards).map _).nodup hnd
  exact ((sortCards_perm _).map _).nodup_iff.mpr h1

/-!  ### Locating an id in the update batches -/

theorem find?_tgtUpds_of_forall (t : Nat) (n : Nat) :
    ∀ (i : Nat) (R : List Card), (∀ d ∈ R, d.id ≠ n) →
      (tgtUpds t i R).find? (fun u => u.id == n) = none
  | _, [], _ => rfl
  | i, c :: cs, h => by
    rw [tgtUpds, List.find?_cons_of_neg _ (by simpa using h c (List.mem_cons_self c cs))]
    exact find?_tgtUpds_of_forall t n (i + 1) cs fun d hd => h d (List.mem_cons_of_mem c hd)

theorem find?_srcUpds_of_forall (n : Nat) :
    ∀ (i : Nat) (R : List Card), (∀ d ∈ R, d.id ≠ n) →
      (srcUpds i R).find? (fun u => u.id == n) = none
  | _, [], _ => rfl
  | i, c :: cs, h => by
    rw [srcUpds, List.find?_cons_of_neg _ (by simpa using h c (List.mem_cons_self c cs))]
    exact find?_srcUpds_of_forall n (i + 1) cs fun d hd => h d (List.mem_cons_of_mem c hd)

theorem find?_reorderUpds_of_forall (n : Nat) :
    ∀ (i : Nat) (R : List Card), (∀ d ∈ R, d.id ≠ n) →
      (reorderUpds i R).find? (fun u => u.id == n) = none
  | _, [], _ => rfl
  | i, c :: cs, h => by
    rw [reorderUpds]
    have hrec := find?_reorderUpds_of_forall n (i + 1) cs
      fun d hd => h d (List.mem_cons_of_mem c hd)
    by_cases hc : c.position = i
    · rw [if_pos hc]
      exact hrec
    · rw [if_neg hc,
        List.find?_cons_of_neg _ (by simpa using h c (List.mem_cons_self c cs))]
      exact hrec

theorem find?_tgtUpds_self (t : Nat) :
    ∀ (i : Nat) (R : List Card), (R.map (fun c => c.id)).Nodup →
      ∀ (k : Nat) (hk : k < R.length),
        (tgtUpds t i R).find? (fun u => u.id == R[k].id) =
          some ⟨R[k].id, R[k].list_id, shiftPos t (i + k)⟩
  | i, c :: cs, hnd, 0, hk => by
    rw [tgtUpds, List.find?_cons_of_pos _ (by simp)]
    rfl
  | i, c :: cs, hnd, k + 1, hk => by
    simp only [List.map_cons, List.nodup_cons] at hnd
    have hkc : k < cs.length := by simpa using hk
    have hne : ¬ (c.id == cs[k].id) = true := by
      simp only [beq_iff_eq]
      intro he
      exact hnd.1 (he ▸ List.mem_map_of_mem _ (List.getElem_mem hkc))
    have hstep := find?_tgtUpds_self t (i + 1) cs hnd.2 k hkc
    have hidx : (c :: cs)[k + 1] = cs[k] := List.getElem_cons_succ c cs k hk
    rw [hidx, tgtUpds,
      @List.find?_cons_of_neg CardUpdate (fun u => u.id == cs[k].id)
        ⟨c.id, c.list_id, shiftPos t i⟩ (tgtUpds t (i + 1) cs) hne,
      hstep, show i + 1 + k = i + (k + 1) by omega]

theorem find?_srcUpds_self :
    ∀ (i : Nat) (R : List Card), (R.map (fun c => c.id)).Nodup →
      ∀ (k : Nat) (hk : k < R.length),
        (srcUpds i R).find? (fun u => u.id == R[k].id) =
          some ⟨R[k].id, R[k].list_id, i + k⟩
  | i, c :: cs, hnd, 0, hk => by
    rw [srcUpds, List.find?_cons_of_pos _ (by simp)]
    rfl
  | i, c :: cs, hnd, k + 1, hk => by
    simp only [List.map_cons, List.nodup_cons] at hnd
    have hkc : k < cs.length := by simpa using hk
    have hne : ¬ (c.id == cs[k].id) = true := by
      simp only [beq_iff_eq]
      intro he
      exact hnd.1 (he ▸ List.mem_map_of_mem _ (List.getElem_mem hkc))
    have hstep := find?_srcUpds_self (i + 1) cs hnd.2 k hkc
    have hidx : (c :: cs)[k + 1] = cs[k] := List.getElem_cons_succ c cs k hk
    rw [hidx, srcUpds,
      @List.find?_cons_of_neg CardUpdate (fun u => u.id == cs[k].id)
        ⟨c.id, c.list_id, i⟩ (srcUpds (i + 1) cs) hne,
      hstep, show i + 1 + k = i + (k + 1) by omega]

theorem find?_reorderUpds_self :
    ∀ (i : Nat) (R : List Card), (R.map (fun c => c.id)).Nodup →
      ∀ (k : Nat) (hk : k < R.length),
        (reorderUpds i R).find? (fun u => u.id == R[k].id) =
          if R[k].position = i + k then none
          else some ⟨R[k].id, R[k].list_id, i + k⟩
  | i, c :: cs, hnd, 0, hk => by
    simp only [List.map_cons, List.nodup_cons] at hnd
    have h0 : (c :: cs)[0] = c := rfl
    rw [h0, reorderUpds]
    by_cases hc : c.position = i
    · rw [if_pos hc, if_pos (by simpa using hc)]
      exact find?_reorderUpds_of_forall c.id (i + 1) cs fun d hd he =>
        hnd.1 (he ▸ List.mem_map_of_mem _ hd)
    · rw [if_neg hc, if_neg (by simpa using hc), List.find?_cons_of_pos _ (by simp)]
      rfl
  | i, c :: cs, hnd, k + 1, hk => by
    simp only [List.map_cons, List.nodup_cons] at hnd
    have hkc : k < cs.length := by simpa using hk
    have hne : ¬ (c.id == cs[k].id) = true := by
      simp only [beq_iff_eq]
      intro he
      exact hnd.1 (he ▸ List.mem_map_of_mem _ (List.getElem_mem hkc))
    have hstep := find?_reorderUpds_self (i + 1) cs hnd.2 k hkc
    rw [show i + 1 + k = i + (k + 1) by omega] at hstep
    have hidx : (c :: cs)[k + 1] = cs[k] := List.getElem_cons_succ c cs k hk
    rw [hidx, reorderUpds]
    by_cases hc : c.position = i
    · rw [if_pos hc]
      exact hstep
    · rw [if_neg hc,
        @List.find?_cons_of_neg CardUpdate (fun u => u.id == cs[k].id)
          ⟨c.id, c.list_id, i⟩ (reorderUpds (i + 1) cs) hne]
      exact hstep

/-!  ### The cross-list move, classified per card -/

theorem mem_sortedContainer {cards : List Card} {lid : Nat} {d : Card} :
    d ∈ sortedContainer cards lid ↔ d ∈ cards ∧ d.list_id = lid := by
  rw [sortedContainer, sortCards, List.mem_insertionSort, cardsOf, List.mem_filter]
  simp

theorem mem_sourceSibs {cards : List Card} {srcL cid : Nat} {d : Card} :
    d ∈ sourceSibs cards srcL cid ↔ d ∈ cards ∧ d.list_id = srcL ∧ d.id ≠ cid := by
  rw [sourceSibs, sortCards, List.mem_insertionSort, List.mem_filter]
  simp

theorem apply_crossUps_moved (cards : List Card) (cid B t srcL : Nat) (x : Card)
    (hx : x.id = cid) :
    applyCardUpd (crossUps cards cid B t srcL) x = { x with list_id := B, position := t } := by
  have hfind : (crossUps cards cid B t srcL).find? (fun u => u.id == x.id) =
      some ⟨cid, B, t⟩ := by
    rw [crossUps, List.find?_cons_of_pos _ (by simp [hx])]
  unfold applyCardUpd
  rw [hfind]

theorem apply_crossUps_tgt (cards : List Card) (cid B t srcL : Nat)
    (hnd : (cards.map (fun c => c.id)).Nodup)
    (k : Nat) (hk : k < (sortedContainer cards B).length)
    (hne : (sortedContainer cards B)[k].id ≠ cid) :
    applyCardUpd (crossUps cards cid B t srcL) ((sortedContainer cards B)[k]) =
      { (sortedContainer cards B)[k] with position := shiftPos t k } := by
  have hndT : ((sortedContainer cards B).map (fun c => c.id)).Nodup :=
    nodup_ids_sortCards _ hnd
  have hfind : (crossUps cards cid B t srcL).find?
      (fun u => u.id == (sortedContainer cards B)[k].id) =
      some ⟨(sortedContainer cards B)[k].id, (sortedContainer cards B)[k].list_id,
        shiftPos t k⟩ := by
    rw [crossUps,
      List.find?_cons_of_neg _ (by simpa using fun h => hne h.symm),
      List.find?_append, find?_tgtUpds_self t 0 _ hndT k hk, Nat.zero_add]
    rfl
  unfold applyCardUpd
  rw [hfind]

theorem apply_crossUps_src (cards : List Card) (cid B t srcL : Nat)
    (hnd : (cards.map (fun c => c.id)).Nodup)
    (k : Nat) (hk : k < (sourceSibs cards srcL cid).length)
    (hnotT : ∀ d ∈ sortedContainer cards B, d.id ≠ (sourceSibs cards srcL cid)[k].id) :
    applyCardUpd (crossUps cards cid B t srcL) ((sourceSibs cards srcL cid)[k]) =
      { (sourceSibs cards srcL cid)[k] with position := k } := by
  have hndS : ((sourceSibs cards srcL cid).map (fun c => c.id)).Nodup :=
    nodup_ids_sortCards _ hnd
  have hne : (sourceSibs cards srcL cid)[k].id ≠ cid :=
    (mem_sourceSibs.mp (List.getElem_mem hk)).2.2
  have hfind : (crossUps cards cid B t srcL).find?
      (fun u => u.id == (sourceSibs cards srcL cid)[k].id) =
      some ⟨(sourceSibs cards srcL cid)[k].id, (sourceSibs cards srcL cid)[k].list_id, k⟩ := by
    rw [crossUps,
      List.find?_cons_of_neg _ (by simpa using fun h => hne h.symm),
      List.find?_append, find?_tgtUpds_of_forall t _ 0 _ hnotT,
      find?_srcUpds_self 0 _ hndS k hk, Nat.zero_add]
    rfl
  unfold applyCardUpd
  rw [hfind]

theorem apply_crossUps_other (cards : List Card) (cid B t srcL : Nat) (x : Card)
    (hne : x.id ≠ cid)
    (hnotT : ∀ d ∈ sortedContainer cards B, d.id ≠ x.id)
    (hnotS : ∀ d ∈ sourceSibs cards srcL cid, d.id ≠ x.id) :
    applyCardUpd (crossUps cards cid B t srcL) x = x := by
  have hfind : (crossUps cards cid B t srcL).find? (fun u => u.id == x.id) = none := by
    rw [crossUps,
      List.find?_cons_of_neg _ (by simpa using fun h => hne h.symm),
      List.find?_append, find?_tgtUpds_of_forall t _ 0 _ hnotT,
      find?_srcUpds_of_forall _ 0 _ hnotS]
    rfl
  unfold applyCardUpd
  rw [hfind]

theorem apply_crossUps_keeps_list (cards : List Card) (cid B t srcL : Nat)
    (hnd : (cards.map (fun c => c.id)).Nodup) (x : Card) (hx : x ∈ cards)
    (hne : x.id ≠ cid) :
    (applyCardUpd (crossUps cards cid B t srcL) x).list_id = x.list_id := by
  unfold applyCardUpd
  cases hf : (crossUps cards cid B t srcL).find? (fun u => u.id == x.id) with
  | none => rfl
  | some u =>
    have hpu : u.id = x.id := by simpa using List.find?_some hf
    have hmem := List.mem_of_find?_eq_some hf
    rcases List.mem_cons.mp hmem with rfl | hmem'
    · exact absurd hpu.symm hne
    · rcases List.mem_append.mp hmem' with h1 | h2
      · obtain ⟨d, hd, hid, hlist⟩ := mem_tgtUpds _ _ _ _ h1
        have hdx : d = x :=
          key_unique _ hnd (mem_sortedContainer.mp hd).1 hx (hid ▸ hpu)
        simpa using hlist.trans (congrArg Card.list_id hdx)
      · obtain ⟨d, hd, hid, hlist⟩ := mem_srcUpds _ _ _ h2
        have hdx : d = x :=
          key_unique _ hnd (mem_sourceSibs.mp hd).1 hx (hid ▸ hpu)
        simpa using hlist.trans (congrArg Card.list_id hdx)

/-!  ### Container contents after a move -/

theorem cardsOf_map (f : Card → Card) (cards : List Card) (L : Nat) :
    cardsOf (cards.map f) L = (cards.filter (fun x => (f x).list_id == L)).map f := by
  rw [cardsOf, List.filter_map]
  rfl

/-- Filtering for "is the moved card or lives in the destination" splits off
the moved card and the destination container. -/
theorem filter_key_or_perm (cards : List Card) (cid B : Nat)
    (hnd : (cards.map (fun c => c.id)).Nodup) (c : Card) (hc : c ∈ cards)
    (hcid : c.id = cid) (hB : c.list_id ≠ B) :
    (cards.filter (fun x => x.id == cid || x.list_id == B)).Perm (c :: cardsOf cards B) := by
  induction cards with
  | nil => cases hc
  | cons a tcs ih =>
    simp only [List.map_cons, List.nodup_cons] at hnd
    rcases List.mem_cons.mp hc with rfl | hc'
    · have hne_t : ∀ x ∈ tcs, x.id ≠ cid := by
        intro x hx he
        apply hnd.1
        rw [hcid, ← he]
        exact List.mem_map_of_mem _ hx
      have h1 : (c :: tcs).filter (fun x => x.id == cid || x.list_id == B) =
          c :: tcs.filter (fun x => x.id == cid || x.list_id == B) :=
        List.filter_cons_of_pos (by simp [hcid])
      have h2 : tcs.filter (fun x => x.id == cid || x.list_id == B) =
          tcs.filter (fun x => x.list_id == B) := by
        apply List.filter_congr
        intro x hx
        simp [hne_t x hx]
      have h3 : cardsOf (c :: tcs) B = tcs.filter (fun x => x.list_id == B) := by
        rw [cardsOf]
        exact List.filter_cons_of_neg (by simpa using hB)
      rw [h1, h2, h3]
    · have ha_ne : a.id ≠ cid := by
        intro he
        exact hnd.1 (by rw [he, ← hcid]; exact List.mem_map_of_mem _ hc')
      have ihp := ih hnd.2 hc'
      by_cases haB : a.list_id = B
      · have h1 : (a :: tcs).filter (fun x => x.id == cid || x.list_id == B) =
            a :: tcs.filter (fun x => x.id == cid || x.list_id == B) :=
          List.filter_cons_of_pos (by simp [haB])
        have h2 : cardsOf (a :: tcs) B = a :: cardsOf tcs B := by
          rw [cardsOf, cardsOf]
          exact List.filter_cons_of_pos (by simpa using haB)
        rw [h1, h2]
        exact (ihp.cons a).trans (List.Perm.swap c a _)
      · have h1 : (a :: tcs).filter (fun x => x.id == cid || x.list_id == B) =
            tcs.filter (fun x => x.id == cid || x.list_id == B) :=
          List.filter_cons_of_neg (by simp [ha_ne, haB])
        have h2 : cardsOf (a :: tcs) B = cardsOf tcs B := by
          rw [cardsOf, cardsOf]
          exact List.filter_cons_of_neg (by simpa using haB)
        rw [h1, h2]
        exact ihp

/-- Shifting `0, ..., n-1` at threshold `t ≤ n` and adding `t` back gives
exactly `0, ..., n`. -/
theorem shift_range_perm {t n : Nat} (ht : t ≤ n) :
    (t :: (List.range n).map (shiftPos t)).Perm (List.range (n + 1)) := by
  have h1 := List.range'_append 0 t (n - t) 1
  rw [show 0 + 1 * t = t by omega, show n - t + t = n by omega] at h1
  have hmap : (List.range n).map (shiftPos t) =
      List.range' 0 t ++ List.range' (t + 1) (n - t) := by
    rw [List.range_eq_range', ← h1, List.map_append]
    congr 1
    · have hcong : ∀ x ∈ List.range' 0 t, shiftPos t x = id x := by
        intro x hx
        obtain ⟨i, hi, hx⟩ := List.mem_range'.mp hx
        rw [shiftPos, if_neg (by omega)]
        rfl
      rw [List.map_congr_left hcong, List.map_id]
    · have hcong : ∀ x ∈ List.range' t (n - t), shiftPos t x = 1 + x := by
        intro x hx
        obtain ⟨i, hi, hx⟩ := List.mem_range'.mp hx
        rw [shiftPos, if_pos (by omega)]
        omega
      rw [List.map_congr_left hcong, List.map_add_range',
        show 1 + t = t + 1 by omega]
  have h2 := List.range'_append 0 t (n + 1 - t) 1
  rw [show 0 + 1 * t = t by omega, show n + 1 - t + t = n + 1 by omega] at h2
  have h3 : List.range' t (n + 1 - t) = t :: List.range' (t + 1) (n - t) := by
    rw [show n + 1 - t = (n - t) + 1 by omega, List.range'_succ]
  rw [hmap, List.range_eq_range', ← h2, h3]
  exact List.perm_middle.symm

/-- After a cross-list move with an in-range target index, the destination
container is dense. -/
theorem crossMove_dense_target (cards : List Card) (cid B t : Nat) (c : Card)
    (hnd : (cards.map (fun x => x.id)).Nodup)
    (hc : c ∈ cards) (hcid : c.id = cid) (hB : c.list_id ≠ B)
    (ht : t ≤ (cardsOf cards B).length) :
    DenseCards (cardsOf (cards.map (applyCardUpd (crossUps cards cid B t c.list_id))) B) := by
  have hTne : ∀ d ∈ sortedContainer cards B, d.id ≠ cid := by
    intro d hd he
    obtain ⟨hdc, hdB⟩ := mem_sortedContainer.mp hd
    have : d = c := key_unique _ hnd hdc hc (he.trans hcid.symm)
    exact hB (this ▸ hdB)
  have hstep1 := cardsOf_map (applyCardUpd (crossUps cards cid B t c.list_id)) cards B
  have hstep2 : cards.filter
      (fun x => (applyCardUpd (crossUps cards cid B t c.list_id) x).list_id == B) =
      cards.filter (fun x => x.id == cid || x.list_id == B) := by
    apply List.filter_congr
    intro x hx
    by_cases hxid : x.id = cid
    · rw [apply_crossUps_moved _ _ _ _ _ _ hxid]
      simp [hxid]
    · rw [apply_crossUps_keeps_list _ _ _ _ _ hnd x hx hxid]
      simp [hxid]
  have hstep3 := filter_key_or_perm cards cid B hnd c hc hcid hB
  have hperm1 : (cardsOf (cards.map (applyCardUpd (crossUps cards cid B t c.list_id))) B).Perm
      ((c :: cardsOf cards B).map (applyCardUpd (crossUps cards cid B t c.list_id))) := by
    rw [hstep1, hstep2]
    exact hstep3.map _
  have hposmap : ((sortedContainer cards B).map
      (fun x => (applyCardUpd (crossUps cards cid B t c.list_id) x).position)) =
      (List.range (cardsOf cards B).length).map (shiftPos t) := by
    apply List.ext_getElem
    · simp [sortedContainer, sortCards]
    · intro k h1 h2
      have hkT : k < (sortedContainer cards B).length := by simpa using h1
      have hkn : k < (cardsOf cards B).length := by
        simpa [sortedContainer, sortCards] using hkT
      rw [List.getElem_map, List.getElem_map,
        apply_crossUps_tgt cards cid B t c.list_id hnd k hkT
          (hTne _ (List.getElem_mem hkT)), List.getElem_range]
  have hinner : ((cardsOf cards B).map
      (fun x => (applyCardUpd (crossUps cards cid B t c.list_id) x).position)).Perm
      ((List.range (cardsOf cards B).length).map (shiftPos t)) := by
    rw [← hposmap]
    exact (sortCards_perm (cardsOf cards B)).symm.map _
  have hmapmap : (((c :: cardsOf cards B).map
      (applyCardUpd (crossUps cards cid B t c.list_id))).map (fun x => x.position)) =
      t :: ((cardsOf cards B).map
        (fun x => (applyCardUpd (crossUps cards cid B t c.list_id) x).position)) := by
    rw [List.map_cons, List.map_cons, List.map_map,
      apply_crossUps_moved _ _ _ _ _ _ hcid]
    rfl
  have hchain : ((cardsOf (cards.map (applyCardUpd (crossUps cards cid B t c.list_id))) B).map
      (fun x => x.position)).Perm
      (t :: (List.range (cardsOf cards B).length).map (shiftPos t)) := by
    refine (hperm1.map _).trans ?_
    rw [hmapmap]
    exact hinner.cons t
  have hlen : (cardsOf (cards.map (applyCardUpd (crossUps cards cid B t c.list_id))) B).length =
      (cardsOf cards B).length + 1 := by
    have := hperm1.length_eq
    simpa using this
  rw [DenseCards, DenseNat, List.length_map, hlen]
  exact hchain.trans (shift_range_perm ht)

/-- After a cross-list move, the source container is densely reindexed. -/
theorem crossMove_dense_source (cards : List Card) (cid B t : Nat) (c : Card)
    (hnd : (cards.map (fun x => x.id)).Nodup)
    (hc : c ∈ cards) (hcid : c.id = cid) (hB : c.list_id ≠ B) :
    DenseCards
      (cardsOf (cards.map (applyCardUpd (crossUps cards cid B t c.list_id))) c.list_id) := by
  have hstep1 := cardsOf_map (applyCardUpd (crossUps cards cid B t c.list_id)) cards c.list_id
  have hstep2 : cards.filter
      (fun x => (applyCardUpd (crossUps cards cid B t c.list_id) x).list_id == c.list_id) =
      cards.filter (fun x => x.list_id == c.list_id && x.id != cid) := by
    apply List.filter_congr
    intro x hx
    by_cases hxid : x.id = cid
    · rw [apply_crossUps_moved _ _ _ _ _ _ hxid]
      simp [hxid, Ne.symm hB]
    · rw [apply_crossUps_keeps_list _ _ _ _ _ hnd x hx hxid]
      simp [hxid]
  have hperm1 : (cardsOf (cards.map (applyCardUpd (crossUps cards cid B t c.list_id)))
      c.list_id).Perm
      ((sourceSibs cards c.list_id cid).map (applyCardUpd (crossUps cards cid B t c.list_id))) := by
    rw [hstep1, hstep2]
    exact ((sortCards_perm _).symm.map _)
  have hposmap : ((sourceSibs cards c.list_id cid).map
      (fun x => (applyCardUpd (crossUps cards cid B t c.list_id) x).position)) =
      List.range (sourceSibs cards c.list_id cid).length := by
    apply List.ext_getElem
    · simp
    · intro k h1 h2
      have hkS : k < (sourceSibs cards c.list_id cid).length := by simpa using h1
      have hnotT : ∀ d ∈ sortedContainer cards B,
          d.id ≠ (sourceSibs cards c.list_id cid)[k].id := by
        intro d hd he
        obtain ⟨hdc, hdB⟩ := mem_sortedContainer.mp hd
        obtain ⟨hsc, hsl, _⟩ := mem_sourceSibs.mp (List.getElem_mem hkS)
        have hdx : d = (sourceSibs cards c.list_id cid)[k] := key_unique _ hnd hdc hsc he
        apply hB
        rw [← hsl, ← hdx, hdB]
      rw [List.getElem_map,
        apply_crossUps_src cards cid B t c.list_id hnd k hkS hnotT, List.getElem_range]
  rw [DenseCards, DenseNat, List.length_map]
  have hlen : (cardsOf (cards.map (applyCardUpd (crossUps cards cid B t c.list_id)))
      c.list_id).length = (sourceSibs cards c.list_id cid).length := by
    simpa using hperm1.length_eq
  rw [hlen]
  refine (hperm1.map _).trans ?_
  have h4 : ((sourceSibs cards c.list_id cid).map
      (applyCardUpd (crossUps cards cid B t c.list_id))).map (fun x => x.position) =
      (sourceSibs cards c.list_id cid).map
        (fun x => (applyCardUpd (crossUps cards cid B t c.list_id) x).position) := by
    rw [List.map_map]
    rfl
  rw [h4, hposmap]

/-- A cross-list move leaves every other container untouched. -/
theorem crossMove_other_container (cards : List Card) (cid B t : Nat) (c : Card)
    (hnd : (cards.map (fun x => x.id)).Nodup)
    (hc : c ∈ cards) (hcid : c.id = cid) (L : Nat)
    (hLB : L ≠ B) (hLA : L ≠ c.list_id) :
    cardsOf (cards.map (applyCardUpd (crossUps cards cid B t c.list_id))) L =
      cardsOf cards L := by
  rw [cardsOf_map]
  have hstep2 : cards.filter
      (fun x => (applyCardUpd (crossUps cards cid B t c.list_id) x).list_id == L) =
      cards.filter (fun x => x.list_id == L) := by
    apply List.filter_congr
    intro x hx
    by_cases hxid : x.id = cid
    · have hxc : x = c := key_unique _ hnd hx hc (hxid.trans hcid.symm)
      rw [apply_crossUps_moved _ _ _ _ _ _ hxid]
      simp [Ne.symm hLB, hxc, Ne.symm hLA]
    · rw [apply_crossUps_keeps_list _ _ _ _ _ hnd x hx hxid]
  have hid : ∀ x ∈ cards.filter (fun x => x.list_id == L),
      applyCardUpd (crossUps cards cid B t c.list_id) x = x := by
    intro x hx
    have hxl : x.list_id = L := by simpa using (List.mem_filter.mp hx).2
    have hxc : x ∈ cards := List.mem_of_mem_filter hx
    have hxid : x.id ≠ cid := by
      intro he
      have hxeq : x = c := key_unique _ hnd hxc hc (he.trans hcid.symm)
      apply hLA
      rw [← hxl, hxeq]
    apply apply_crossUps_other
    · exact hxid
    · intro d hd he
      obtain ⟨hdc, hdB⟩ := mem_sortedContainer.mp hd
      have hdx : d = x := key_unique _ hnd hdc hxc he
      apply hLB
      rw [← hxl, ← hdx, hdB]
    · intro d hd he
      obtain ⟨hdc, hdl, _⟩ := mem_sourceSibs.mp hd
      have hdx : d = x := key_unique _ hnd hdc hxc he
      apply hLA
      rw [← hxl, ← hdx, hdl]
  rw [hstep2, List.map_congr_left hid]
  simp [cardsOf]

/-!  ### The same-list move, classified per card -/

theorem nodup_ids_reordered (cards : List Card) (cid t lid : Nat)
    (hnd : (cards.map (fun x => x.id)).Nodup) :
    ((arrayMove (sortedContainer cards lid)
      ((sortedContainer cards lid).findIdx (fun c => c.id == cid)) t).map
        (fun x => x.id)).Nodup := by
  have h1 : ((sortedContainer cards lid).map (fun x => x.id)).Nodup :=
    nodup_ids_sortCards _ hnd
  exact ((arrayMove_perm _ _ _).map _).nodup_iff.mpr h1

theorem mem_reordered_iff {cards : List Card} {cid t lid : Nat} {d : Card} :
    d ∈ arrayMove (sortedContainer cards lid)
      ((sortedContainer cards lid).findIdx (fun c => c.id == cid)) t ↔
      d ∈ cards ∧ d.list_id = lid := by
  rw [(arrayMove_perm _ _ _).mem_iff, mem_sortedContainer]

theorem card_eta_pos {x : Card} {k : Nat} (h : x.position = k) :
    ({ x with position := k } : Card) = x := by
  rw [← h]

theorem apply_sameUps_pos (cards : List Card) (cid t lid : Nat)
    (hnd : (cards.map (fun x => x.id)).Nodup) (k : Nat)
    (hk : k < (arrayMove (sortedContainer cards lid)
      ((sortedContainer cards lid).findIdx (fun c => c.id == cid)) t).length) :
    applyCardUpd (sameUps cards cid t lid)
        ((arrayMove (sortedContainer cards lid)
          ((sortedContainer cards lid).findIdx (fun c => c.id == cid)) t)[k]) =
      { (arrayMove (sortedContainer cards lid)
          ((sortedContainer cards lid).findIdx (fun c => c.id == cid)) t)[k] with
        position := k } := by
  have hndR := nodup_ids_reordered cards cid t lid hnd
  have hfind := find?_reorderUpds_self 0 _ hndR k hk
  rw [Nat.zero_add] at hfind
  unfold applyCardUpd sameUps
  rw [hfind]
  by_cases hp : (arrayMove (sortedContainer cards lid)
      ((sortedContainer cards lid).findIdx (fun c => c.id == cid)) t)[k].position = k
  · rw [if_pos hp]
    exact (card_eta_pos hp).symm
  · rw [if_neg hp]

theorem apply_sameUps_not_container (cards : List Card) (cid t lid : Nat)
    (hnd : (cards.map (fun x => x.id)).Nodup) (x : Card) (hx : x ∈ cards)
    (hxl : x.list_id ≠ lid) :
    applyCardUpd (sameUps cards cid t lid) x = x := by
  have hfind : (sameUps cards cid t lid).find? (fun u => u.id == x.id) = none := by
    rw [sameUps]
    apply find?_reorderUpds_of_forall
    intro d hd he
    obtain ⟨hdc, hdl⟩ := mem_reordered_iff.mp hd
    have hdx : d = x := key_unique _ hnd hdc hx he
    exact hxl (hdx ▸ hdl)
  unfold applyCardUpd
  rw [hfind]

theorem apply_sameUps_keeps_list (cards : List Card) (cid t lid : Nat)
    (hnd : (cards.map (fun x => x.id)).Nodup) (x : Card) (hx : x ∈ cards) :
    (applyCardUpd (sameUps cards cid t lid) x).list_id = x.list_id := by
  unfold applyCardUpd
  cases hf : (sameUps cards cid t lid).find? (fun u => u.id == x.id) with
  | none => rfl
  | some u =>
    have hpu : u.id = x.id := by simpa using List.find?_some hf
    have hmem := List.mem_of_find?_eq_some hf
    rw [sameUps] at hmem
    obtain ⟨d, hd, hid, hlist, _⟩ := mem_reorderUpds _ _ _ hmem
    have hdx : d = x := key_unique _ hnd (mem_reordered_iff.mp hd).1 hx (hid ▸ hpu)
    simpa using hlist.trans (congrArg Card.list_id hdx)

/-- After a same-list move, the container is dense (whatever the target index:
the splice clamps, and every card is reassigned its rotation index). -/
theorem sameMove_dense_container (cards : List Card) (cid t lid : Nat)
    (hnd : (cards.map (fun x => x.id)).Nodup) :
    DenseCards (cardsOf (cards.map (applyCardUpd (sameUps cards cid t lid))) lid) := by
  have hstep1 := cardsOf_map (applyCardUpd (sameUps cards cid t lid)) cards lid
  have hstep2 : cards.filter
      (fun x => (applyCardUpd (sameUps cards cid t lid) x).list_id == lid) =
      cards.filter (fun x => x.list_id == lid) := by
    apply List.filter_congr
    intro x hx
    rw [apply_sameUps_keeps_list _ _ _ _ hnd x hx]
  have hperm1 : (cardsOf (cards.map (applyCardUpd (sameUps cards cid t lid))) lid).Perm
      ((arrayMove (sortedContainer cards lid)
        ((sortedContainer cards lid).findIdx (fun c => c.id == cid)) t).map
          (applyCardUpd (sameUps cards cid t lid))) := by
    rw [hstep1, hstep2]
    refine List.Perm.map _ ?_
    exact ((sortCards_perm (cardsOf cards lid)).symm.trans (arrayMove_perm _ _ _).symm)
  have hposmap : ((arrayMove (sortedContainer cards lid)
      ((sortedContainer cards lid).findIdx (fun c => c.id == cid)) t).map
        (fun x => (applyCardUpd (sameUps cards cid t lid) x).position)) =
      List.range (arrayMove (sortedContainer cards lid)
        ((sortedContainer cards lid).findIdx (fun c => c.id == cid)) t).length := by
    apply List.ext_getElem
    · simp
    · intro k h1 h2
      have hkR : k < (arrayMove (sortedContainer cards lid)
          ((sortedContainer cards lid).findIdx (fun c => c.id == cid)) t).length := by
        simpa using h1
      rw [List.getElem_map, apply_sameUps_pos cards cid t lid hnd k hkR, List.getElem_range]
  rw [DenseCards, DenseNat, List.length_map]
  have hlen : (cardsOf (cards.map (applyCardUpd (sameUps cards cid t lid))) lid).length =
      (arrayMove (sortedContainer cards lid)
        ((sortedContainer cards lid).findIdx (fun c => c.id == cid)) t).length := by
    simpa using hperm1.length_eq
  rw [hlen]
  refine (hperm1.map _).trans ?_
  have h4 : ((arrayMove (sortedContainer cards lid)
      ((sortedContainer cards lid).findIdx (fun c => c.id == cid)) t).map
        (applyCardUpd (sameUps cards cid t lid))).map (fun x => x.position) =
      (arrayMove (sortedContainer cards lid)
        ((sortedContainer cards lid).findIdx (fun c => c.id == cid)) t).map
          (fun x => (applyCardUpd (sameUps cards cid t lid) x).position) := by
    rw [List.map_map]
    rfl
  rw [h4, hposmap]

/-- A same-list move leaves every other container untouched. -/
theorem sameMove_other_container (cards : List Card) (cid t lid : Nat)
    (hnd : (cards.map (fun x => x.id)).Nodup) (L : Nat) (hL : L ≠ lid) :
    cardsOf (cards.map (applyCardUpd (sameUps cards cid t lid))) L = cardsOf cards L := by
  rw [cardsOf_map]
  have hstep2 : cards.filter
      (fun x => (applyCardUpd (sameUps cards cid t lid) x).list_id == L) =
      cards.filter (fun x => x.list_id == L) := by
    apply List.filter_congr
    intro x hx
    rw [apply_sameUps_keeps_list _ _ _ _ hnd x hx]
  have hid : ∀ x ∈ cards.filter (fun x => x.list_id == L),
      applyCardUpd (sameUps cards cid t lid) x = x := by
    intro x hx
    have hxl : x.list_id = L := by simpa using (List.mem_filter.mp hx).2
    exact apply_sameUps_not_container cards cid t lid hnd x (List.mem_of_mem_filter hx)
      (by rw [hxl]; exact hL)
  rw [hstep2, List.map_congr_left hid]
  simp [cardsOf]

/-- Updating a card collection in place never changes the id sequence. -/
theorem map_ids_applyCardUpd (ups : List CardUpdate) (cards : List Card) :
    (cards.map (applyCardUpd ups)).map (fun x => x.id) = cards.map (fun x => x.id) := by
  rw [List.map_map]
  exact List.map_congr_left fun a _ => applyCardUpd_id ups a

/-!  ### The list move -/

theorem blist_eta_pos {x : BList} {k : Nat} (h : x.position = k) :
    ({ x with position := k } : BList) = x := by
  rw [← h]

theorem mem_listUpdsAll :
    ∀ (i : Nat) (R : List BList) (u : ListUpdate), u ∈ listUpdsAll i R → ∃ d ∈ R, u.id = d.id
  | _, [], u, h => by cases h
  | i, l :: ls, u, h => by
    rcases List.mem_cons.mp h with rfl | h'
    · exact ⟨l, List.mem_cons_self l ls, rfl⟩
    · obtain ⟨d, hd, h1⟩ := mem_listUpdsAll (i + 1) ls u h'
      exact ⟨d, List.mem_cons_of_mem l hd, h1⟩

theorem find?_filter_listUpdsAll_of_forall (q : ListUpdate → Bool) (n : Nat)
    (i : Nat) (R : List BList) (h : ∀ d ∈ R, d.id ≠ n) :
    ((listUpdsAll i R).filter q).find? (fun u => u.id == n) = none := by
  rw [List.find?_eq_none]
  intro u hu
  obtain ⟨d, hd, hid⟩ := mem_listUpdsAll i R u (List.mem_of_mem_filter hu)
  simp [hid, h d hd]

theorem find?_filter_listUpdsAll_self (q : ListUpdate → Bool) :
    ∀ (i : Nat) (R : List BList), (R.map (fun l => l.id)).Nodup →
      ∀ (k : Nat) (hk : k < R.length),
        ((listUpdsAll i R).filter q).find? (fun u => u.id == R[k].id) =
          if q ⟨R[k].id, i + k⟩ then some ⟨R[k].id, i + k⟩ else none
  | i, l :: ls, hnd, 0, hk => by
    simp only [List.map_cons, List.nodup_cons] at hnd
    have h0 : (l :: ls)[0] = l := rfl
    rw [h0, listUpdsAll]
    by_cases hq : q ⟨l.id, i + 0⟩ = true
    · have hq' : q ⟨l.id, i⟩ = true := hq
      rw [List.filter_cons_of_pos hq', List.find?_cons_of_pos _ (by simp), if_pos hq]
      rfl
    · have hq' : ¬ q ⟨l.id, i⟩ = true := hq
      rw [List.filter_cons_of_neg hq', if_neg hq]
      exact find?_filter_listUpdsAll_of_forall q l.id (i + 1) ls
        fun d hd he => hnd.1 (he ▸ List.mem_map_of_mem _ hd)
  | i, l :: ls, hnd, k + 1, hk => by
    simp only [List.map_cons, List.nodup_cons] at hnd
    have hkc : k < ls.length := by simpa using hk
    have hidx : (l :: ls)[k + 1] = ls[k] := List.getElem_cons_succ l ls k hk
    have hne : ¬ (l.id == ls[k].id) = true := by
      simp only [beq_iff_eq]
      intro he
      exact hnd.1 (he ▸ List.mem_map_of_mem _ (List.getElem_mem hkc))
    have hstep := find?_filter_listUpdsAll_self q (i + 1) ls hnd.2 k hkc
    rw [show i + 1 + k = i + (k + 1) by omega] at hstep
    rw [hidx, listUpdsAll]
    by_cases hq : q ⟨l.id, i⟩ = true
    · rw [List.filter_cons_of_pos hq,
        @List.find?_cons_of_neg ListUpdate (fun u => u.id == ls[k].id) ⟨l.id, i⟩ _ hne]
      exact hstep
    · rw [List.filter_cons_of_neg hq]
      exact hstep

theorem find?_filter_listUpdsAll_self_pos (q : ListUpdate → Bool) (i : Nat) (R : List BList)
    (hnd : (R.map (fun l => l.id)).Nodup) (k : Nat) (hk : k < R.length)
    (hq : q ⟨R[k].id, i + k⟩ = true) :
    ((listUpdsAll i R).filter q).find? (fun u => u.id == R[k].id) = some ⟨R[k].id, i + k⟩ := by
  rw [find?_filter_listUpdsAll_self q i R hnd k hk, if_pos hq]

theorem find?_filter_listUpdsAll_self_neg (q : ListUpdate → Bool) (i : Nat) (R : List BList)
    (hnd : (R.map (fun l => l.id)).Nodup) (k : Nat) (hk : k < R.length)
    (hq : q ⟨R[k].id, i + k⟩ = false) :
    ((listUpdsAll i R).filter q).find? (fun u => u.id == R[k].id) = none := by
  rw [find?_filter_listUpdsAll_self q i R hnd k hk, if_neg (by simp [hq])]

theorem listReordered_perm (lists : List BList) (lid t : Nat) :
    (listReordered lists lid t).Perm lists := by
  rw [listReordered]
  exact (arrayMove_perm _ _ _).trans (sortLists_perm lists)

theorem apply_listMoveUps_pos (lists : List BList) (lid t : Nat)
    (hnd : (lists.map (fun l => l.id)).Nodup) (k : Nat)
    (hk : k < (listReordered lists lid t).length) :
    applyListUpd (listMoveUps lists lid t) ((listReordered lists lid t)[k]) =
      { (listReordered lists lid t)[k] with position := k } := by
  have hndR : ((listReordered lists lid t).map (fun l => l.id)).Nodup :=
    ((listReordered_perm lists lid t).map _).nodup_iff.mpr hnd
  have hmem : (listReordered lists lid t)[k] ∈ lists :=
    (listReordered_perm lists lid t).mem_iff.mp (List.getElem_mem hk)
  have horig : lists.find?
      (fun x => x.id == (listReordered lists lid t)[k].id) =
      some ((listReordered lists lid t)[k]) := find?_key_self (fun l => l.id) hnd hmem
  have hqval : (fun (u : ListUpdate) =>
      match lists.find? (fun l => l.id == u.id) with
      | some orig => orig.position != u.position
      | none => false) (⟨(listReordered lists lid t)[k].id, k⟩ : ListUpdate) =
      ((listReordered lists lid t)[k].position != k) := by
    show (match lists.find?
        (fun l => l.id == (listReordered lists lid t)[k].id) with
      | some orig => orig.position != k
      | none => false) = ((listReordered lists lid t)[k].position != k)
    rw [horig]
  unfold applyListUpd listMoveUps
  by_cases hp : (listReordered lists lid t)[k].position = k
  · have hfind := find?_filter_listUpdsAll_self_neg (fun u =>
        match lists.find? (fun l => l.id == u.id) with
        | some orig => orig.position != u.position
        | none => false) 0 (listReordered lists lid t) hndR k hk
      (by rw [Nat.zero_add, hqval]; simp [hp])
    rw [hfind]
    exact (blist_eta_pos hp).symm
  · have hfind := find?_filter_listUpdsAll_self_pos (fun u =>
        match lists.find? (fun l => l.id == u.id) with
        | some orig => orig.position != u.position
        | none => false) 0 (listReordered lists lid t) hndR k hk
      (by rw [Nat.zero_add, hqval]; simpa using hp)
    rw [Nat.zero_add] at hfind
    rw [hfind]

theorem optimisticMoveList_some {lists : List BList} {lid t : Nat} {ups : List ListUpdate}
    {newLists : List BList} (h : optimisticMoveList lists lid t = some (ups, newLists)) :
    ups = listMoveUps lists lid t ∧
      newLists = sortLists (lists.map (applyListUpd (listMoveUps lists lid t))) := by
  unfold optimisticMoveList at h
  cases hf : lists.find? (fun l => l.id == lid) with
  | none => rw [hf] at h; cases h
  | some l0 =>
    rw [hf] at h
    by_cases hidx : (sortLists lists).findIdx (fun l => l.id == lid) = (sortLists lists).length
    · rw [if_pos hidx] at h
      cases h
    · rw [if_neg hidx] at h
      have h' := Option.some.injEq .. ▸ h
      obtain ⟨h1, h2⟩ := Prod.mk.injEq .. ▸ h'
      exact ⟨h1.symm, h2.symm⟩

/-- A list move produces a dense board and preserves the set of list ids. -/
theorem moveList_dense (lists : List BList) (lid t : Nat)
    (hnd : (lists.map (fun l => l.id)).Nodup) {ups : List ListUpdate} {newLists : List BList}
    (h : optimisticMoveList lists lid t = some (ups, newLists)) :
    DenseNat (newLists.map (fun l => l.position)) ∧
      (newLists.map (fun l => l.id)).Perm (lists.map (fun l => l.id)) := by
  obtain ⟨-, h2⟩ := optimisticMoveList_some h
  subst h2
  have hposmap : ((listReordered lists lid t).map
      (fun x => (applyListUpd (listMoveUps lists lid t) x).position)) =
      List.range (listReordered lists lid t).length := by
    apply List.ext_getElem
    · simp
    · intro k h1 h2
      have hkR : k < (listReordered lists lid t).length := by simpa using h1
      rw [List.getElem_map, apply_listMoveUps_pos lists lid t hnd k hkR, List.getElem_range]
  have hmm : ((lists.map (applyListUpd (listMoveUps lists lid t))).map
      (fun l => l.position)) = lists.map
        (fun x => (applyListUpd (listMoveUps lists lid t) x).position) := by
    rw [List.map_map]
    rfl
  constructor
  · rw [DenseNat, List.length_map]
    have hlen : (sortLists (lists.map (applyListUpd (listMoveUps lists lid t)))).length =
        (listReordered lists lid t).length := by
      have e1 := (sortLists_perm (lists.map (applyListUpd (listMoveUps lists lid t)))).length_eq
      have e2 := (listReordered_perm lists lid t).length_eq
      simp only [List.length_map] at e1 ⊢
      omega
    rw [hlen]
    refine ((sortLists_perm _).map _).trans ?_
    rw [hmm, ← hposmap]
    exact (listReordered_perm lists lid t).symm.map _
  · refine ((sortLists_perm _).map _).trans ?_
    have hids : ((lists.map (applyListUpd (listMoveUps lists lid t))).map
        (fun l => l.id)) = lists.map (fun l => l.id) := by
      rw [List.map_map]
      exact List.map_congr_left fun a _ => applyListUpd_id _ a
    rw [hids]

/-!  ### C1: the density invariant -/

theorem applyMoveOp_card_eq (s : BoardState) (cid lid pos : Nat)
    {ups : List CardUpdate} {cs' : List Card}
    (h : optimisticMoveCard s.cards cid lid pos = some (ups, cs')) :
    applyMoveOp s (.card cid lid pos) = { s with cards := cs' } := by
  simp only [applyMoveOp]
  rw [h]

theorem applyMoveOp_card_none (s : BoardState) (cid lid pos : Nat)
    (h : optimisticMoveCard s.cards cid lid pos = none) :
    applyMoveOp s (.card cid lid pos) = s := by
  simp only [applyMoveOp]
  rw [h]

theorem applyMoveOp_list_eq (s : BoardState) (lid pos : Nat)
    {ups : List ListUpdate} {ls' : List BList}
    (h : optimisticMoveList s.lists lid pos = some (ups, ls')) :
    applyMoveOp s (.list lid pos) = { s with lists := ls' } := by
  simp only [applyMoveOp]
  rw [h]

theorem applyMoveOp_list_none (s : BoardState) (lid pos : Nat)
    (h : optimisticMoveList s.lists lid pos = none) :
    applyMoveOp s (.list lid pos) = s := by
  simp only [applyMoveOp]
  rw [h]

/-- One in-range move preserves density of every container and distinctness
of ids. -/
theorem applyMoveOp_good (s : BoardState) (op : MoveOp)
    (hnd : NodupIds s) (hd : BoardDense s) (hin : opInRange s op) :
    BoardDense (applyMoveOp s op) ∧ NodupIds (applyMoveOp s op) := by
  cases op with
  | card cid lid pos =>
    cases hf : s.cards.find? (fun c => c.id == cid) with
    | none =>
      have hnone : optimisticMoveCard s.cards cid lid pos = none := by
        unfold optimisticMoveCard
        rw [hf]
      rw [applyMoveOp_card_none s cid lid pos hnone]
      exact ⟨hd, hnd⟩
    | some c =>
      have hcmem : c ∈ s.cards := List.mem_of_find?_eq_some hf
      have hcid : c.id = cid := by simpa using List.find?_some hf
      by_cases hsame : c.list_id = lid
      · have heq := optimisticMoveCard_same_eq s.cards cid pos c hf
        rw [hsame] at heq
        rw [applyMoveOp_card_eq s cid lid pos heq]
        refine ⟨⟨hd.1, fun L => ?_⟩, ?_, hnd.2⟩
        · by_cases hL : L = lid
          · subst hL
            exact sameMove_dense_container s.cards cid pos L hnd.1
          · rw [show cardsOf (s.cards.map (applyCardUpd (sameUps s.cards cid pos lid))) L =
                cardsOf s.cards L from sameMove_other_container s.cards cid pos lid hnd.1 L hL]
            exact hd.2 L
        · rw [show ((s.cards.map (applyCardUpd (sameUps s.cards cid pos lid))).map
              (fun x => x.id)) = s.cards.map (fun x => x.id) from
            map_ids_applyCardUpd _ _]
          exact hnd.1
      · have heq := optimisticMoveCard_cross_eq s.cards cid lid pos c hf hsame
        have ht : pos ≤ (cardsOf s.cards lid).length := hin c hcmem hcid hsame
        rw [applyMoveOp_card_eq s cid lid pos heq]
        refine ⟨⟨hd.1, fun L => ?_⟩, ?_, hnd.2⟩
        · by_cases hL1 : L = lid
          · subst hL1
            exact crossMove_dense_target s.cards cid L pos c hnd.1 hcmem hcid hsame ht
          · by_cases hL2 : L = c.list_id
            · subst hL2
              exact crossMove_dense_source s.cards cid lid pos c hnd.1 hcmem hcid hsame
            · rw [show cardsOf (s.cards.map
                  (applyCardUpd (crossUps s.cards cid lid pos c.list_id))) L =
                  cardsOf s.cards L from
                crossMove_other_container s.cards cid lid pos c hnd.1 hcmem hcid L hL1 hL2]
              exact hd.2 L
        · rw [show ((s.cards.map (applyCardUpd (crossUps s.cards cid lid pos c.list_id))).map
              (fun x => x.id)) = s.cards.map (fun x => x.id) from
            map_ids_applyCardUpd _ _]
          exact hnd.1
  | list lid pos =>
    cases h : optimisticMoveList s.lists lid pos with
    | none =>
      rw [applyMoveOp_list_none s lid pos h]
      exact ⟨hd, hnd⟩
    | some pr =>
      obtain ⟨ups, newLists⟩ := pr
      have hres := moveList_dense s.lists lid pos hnd.2 h
      rw [applyMoveOp_list_eq s lid pos h]
      exact ⟨⟨hres.1, hd.2⟩, hnd.1, hres.2.nodup_iff.mpr hnd.2⟩

/-- C1 amended: starting from a dense state with distinct ids, any sequence
of optimistic card and list moves whose cross-list card moves carry an
in-range target index leaves every container (each list's cards, the board's
lists) with positions exactly 0..n-1, each exactly once. Remote merge events
and out-of-range target indices are excluded: either one can break density,
as the counterexample shows. In this synchronous model every move completes
before the next operation, so the final state is the settled state. -/
theorem density_invariant (s : BoardState) (ops : List MoveOp)
    (hnd : NodupIds s) (hd : BoardDense s) (hin : InRangeSeq s ops) :
    BoardDense (ops.foldl applyMoveOp s) := by
  induction ops generalizing s with
  | nil => simpa using hd
  | cons op ops ih =>
    obtain ⟨h1, h2⟩ := hin
    obtain ⟨hd', hnd'⟩ := applyMoveOp_good s op hnd hd h1
    simpa using ih (applyMoveOp s op) hnd' hd' h2

/-- C1 counterexample: a single remote update event (position 5 for the only
card of its list) yields a settled state whose container positions are not
dense, and a single cross-list move with out-of-range target index 5 does the
same, starting from a dense state in both cases. -/
theorem density_invariant_cex :
    (applyCardEvent [⟨1, "a", 0, 1⟩] (.update ⟨1, "a", 5, 1⟩) = [⟨1, "a", 5, 1⟩] ∧
      ¬ DenseCards (cardsOf [⟨1, "a", 5, 1⟩] 1) ∧
      DenseCards (cardsOf [⟨1, "a", 0, 1⟩] 1)) ∧
    (applyMoveOp ⟨[⟨1, "L", 0⟩, ⟨2, "M", 1⟩], [⟨10, "a", 0, 1⟩]⟩ (.card 10 2 5) =
        ⟨[⟨1, "L", 0⟩, ⟨2, "M", 1⟩], [⟨10, "a", 5, 2⟩]⟩ ∧
      ¬ DenseCards (cardsOf [⟨10, "a", 5, 2⟩] 2)) ∧
    BoardDense ⟨[⟨1, "L", 0⟩, ⟨2, "M", 1⟩], [⟨10, "a", 0, 1⟩]⟩ := by
  refine ⟨by decide, by decide, ?_⟩
  exact boardDense_of_mem _ (by decide) (by decide)

/-- Witness for C1 amended: a cross-list card move followed by a list move,
from a concrete dense two-list board. -/
theorem density_invariant_witness :
    BoardDense (List.foldl applyMoveOp
      ⟨[⟨1, "L", 0⟩, ⟨2, "M", 1⟩], [⟨10, "a", 0, 1⟩, ⟨11, "b", 1, 1⟩]⟩
      [.card 11 2 0, .list 2 0]) :=
  density_invariant ⟨[⟨1, "L", 0⟩, ⟨2, "M", 1⟩], [⟨10, "a", 0, 1⟩, ⟨11, "b", 1, 1⟩]⟩
    [.card 11 2 0, .list 2 0] ⟨by decide, by decide⟩
    (boardDense_of_mem _ (by decide) (by decide))
    ⟨by decide, by decide, trivial⟩

/-!  ### C6: moving a card to its own current index is a no-op -/

theorem findIdx_key (f : α → Nat) (n : Nat) :
    ∀ (R : List α), (R.map f).Nodup →
      ∀ (k : Nat) (hk : k < R.length), f (R[k]) = n →
        R.findIdx (fun x => f x == n) = k
  | a :: t, hnd, 0, hk, he => by
    have h0 : (a :: t)[0] = a := rfl
    rw [h0] at he
    rw [List.findIdx_cons, he]
    simp
  | a :: t, hnd, k + 1, hk, he => by
    simp only [List.map_cons, List.nodup_cons] at hnd
    have hkc : k < t.length := by simpa using hk
    have hidx : (a :: t)[k + 1] = t[k] := List.getElem_cons_succ a t k hk
    rw [hidx] at he
    have hne : (f a == n) = false := by
      simp only [beq_eq_false_iff_ne, ne_eq]
      intro hfa
      exact hnd.1 ((hfa.trans he.symm) ▸ List.mem_map_of_mem _ (List.getElem_mem hkc))
    rw [List.findIdx_cons, hne]
    simp only [cond_false]
    rw [findIdx_key f n t hnd.2 k hkc he]

theorem insertAt_cons (j : Nat) (x a : α) (m : List α) :
    insertAt (j + 1) x (a :: m) = a :: insertAt j x m := rfl

theorem arrayMove_self : ∀ (l : List α) (i : Nat), arrayMove l i i = l
  | [], _ => rfl
  | a :: t, 0 => rfl
  | a :: t, i + 1 => by
    unfold arrayMove
    cases hg : (a :: t).get? (i + 1) with
    | none => rfl
    | some x =>
      have hg' : t.get? i = some x := by simpa using hg
      have hrec := arrayMove_self t i
      rw [arrayMove, hg'] at hrec
      have hrec2 : insertAt i x (t.eraseIdx i) = t := hrec
      show insertAt (i + 1) x ((a :: t).eraseIdx (i + 1)) = a :: t
      have he : (a :: t).eraseIdx (i + 1) = a :: t.eraseIdx i := rfl
      rw [he, insertAt_cons, hrec2]

theorem reorderUpds_nil :
    ∀ (i : Nat) (R : List Card), (∀ (k : Nat) (hk : k < R.length), R[k].position = i + k) →
      reorderUpds i R = []
  | _, [], _ => rfl
  | i, c :: cs, h => by
    have h0 : c.position = i := by
      have := h 0 (by simp)
      simpa using this
    rw [reorderUpds, if_pos h0]
    apply reorderUpds_nil (i + 1) cs
    intro k hk
    have hk1 : k + 1 < (c :: cs).length := by simpa using hk
    have := h (k + 1) hk1
    have hidx : (c :: cs)[k + 1] = cs[k] := List.getElem_cons_succ c cs k hk1
    rw [hidx] at this
    omega

theorem map_applyCardUpd_nil : ∀ (cards : List Card), cards.map (applyCardUpd []) = cards
  | [] => rfl
  | c :: cs => by
    rw [List.map_cons, map_applyCardUpd_nil cs]
    rfl

/-- C6: moving a card to its own current display index within its own list
produces an empty update set, leaves the in-memory collections unchanged, and
issues no durable write. -/
theorem moveCard_same_index_noop (fail : CardUpdate → Bool) (fetchedLists : List BList)
    (fetchedCards : List Card) (lists : List BList) (cards : List Card) (cid : Nat) (c : Card)
    (hnd : (cards.map (fun x => x.id)).Nodup)
    (hfind : cards.find? (fun x => x.id == cid) = some c)
    (hdense : DenseCards (cardsOf cards c.list_id)) :
    optimisticMoveCard cards cid c.list_id c.position = some ([], cards) ∧
      moveCard fail fetchedLists fetchedCards lists cards cid c.list_id c.position =
        ⟨lists, cards, []⟩ := by
  have hcid : c.id = cid := by simpa using List.find?_some hfind
  have hcmem : c ∈ cards := List.mem_of_find?_eq_some hfind
  have hmemL : c ∈ sortedContainer cards c.list_id := mem_sortedContainer.mpr ⟨hcmem, rfl⟩
  obtain ⟨q, hq, hcq⟩ := List.mem_iff_getElem.mp hmemL
  have hqpos : c.position = q := by
    have := position_sortCards_getElem hdense hq
    rw [show (sortCards (cardsOf cards c.list_id))[q] = c from hcq] at this
    exact this
  have hidx : (sortedContainer cards c.list_id).findIdx (fun x => x.id == cid) = q := by
    have hndL : ((sortedContainer cards c.list_id).map (fun x => x.id)).Nodup :=
      nodup_ids_sortCards _ hnd
    exact findIdx_key (fun x => x.id) cid _ hndL q hq (by rw [hcq]; exact hcid)
  have hups : sameUps cards cid c.position c.list_id = [] := by
    rw [sameUps, hidx, hqpos, arrayMove_self]
    apply reorderUpds_nil
    intro k hk
    rw [Nat.zero_add]
    exact position_sortCards_getElem hdense (by simpa using hk)
  have h1 : optimisticMoveCard cards cid c.list_id c.position = some ([], cards) := by
    rw [optimisticMoveCard_same_eq cards cid c.position c hfind, hups, map_applyCardUpd_nil]
  refine ⟨h1, ?_⟩
  simp [moveCard, h1]

/-- Witness for C6: a dense two-card list; moving the second card to its own
index 1 changes nothing and writes nothing. -/
theorem moveCard_same_index_noop_witness :
    optimisticMoveCard [⟨10, "a", 0, 1⟩, ⟨11, "b", 1, 1⟩] 11 1 1 =
        some ([], [⟨10, "a", 0, 1⟩, ⟨11, "b", 1, 1⟩]) ∧
      moveCard (fun _ => true) [] [] [⟨9, "L", 0⟩] [⟨10, "a", 0, 1⟩, ⟨11, "b", 1, 1⟩] 11 1 1 =
        ⟨[⟨9, "L", 0⟩], [⟨10, "a", 0, 1⟩, ⟨11, "b", 1, 1⟩], []⟩ :=
  moveCard_same_index_noop (fun _ => true) [] [] [⟨9, "L", 0⟩]
    [⟨10, "a", 0, 1⟩, ⟨11, "b", 1, 1⟩] 11 ⟨11, "b", 1, 1⟩ (by decide) (by decide) (by decide)

/-!  ### C2: cross-container move correctness -/

/-- C2: moving a card between two distinct dense lists gives the moved card
the destination list id and position targetIndex; every destination card at
display index at least targetIndex is shifted up by one while earlier cards
keep their index; and the remaining source cards are reindexed to a dense
0..n-1 sequence in their original relative order. -/
theorem crossMove_correct (cards : List Card) (cid B t : Nat) (c : Card)
    (hnd : (cards.map (fun x => x.id)).Nodup)
    (hfind : cards.find? (fun x => x.id == cid) = some c)
    (hB : c.list_id ≠ B)
    (hdA : DenseCards (cardsOf cards c.list_id))
    (hdB : DenseCards (cardsOf cards B))
    (ups : List CardUpdate) (cs' : List Card)
    (h : optimisticMoveCard cards cid B t = some (ups, cs')) :
    findCard cs' cid = some { c with list_id := B, position := t } ∧
      (∀ (k : Nat) (hk : k < (sortedContainer cards B).length),
        findCard cs' (sortedContainer cards B)[k].id =
          some { (sortedContainer cards B)[k] with
            position := if t ≤ k then k + 1 else k }) ∧
      (∀ (k : Nat) (hk : k < (sourceSibs cards c.list_id cid).length),
        findCard cs' (sourceSibs cards c.list_id cid)[k].id =
          some { (sourceSibs cards c.list_id cid)[k] with position := k }) := by
  have hcid : c.id = cid := by simpa using List.find?_some hfind
  have hcmem : c ∈ cards := List.mem_of_find?_eq_some hfind
  rw [optimisticMoveCard_cross_eq cards cid B t c hfind hB] at h
  obtain ⟨hups, hcs⟩ := Prod.mk.injEq .. ▸ Option.some.injEq .. ▸ h
  have hTne : ∀ d ∈ sortedContainer cards B, d.id ≠ cid := by
    intro d hd he
    obtain ⟨hdc, hdB⟩ := mem_sortedContainer.mp hd
    have hdceq : d = c := key_unique _ hnd hdc hcmem (he.trans hcid.symm)
    exact hB (hdceq ▸ hdB)
  refine ⟨?_, ?_, ?_⟩
  · rw [← hcs, findCard, find?_map_id _ (applyCardUpd_id _) hfind,
      apply_crossUps_moved _ _ _ _ _ _ hcid]
  · intro k hk
    have hd := List.getElem_mem hk
    have hfd : cards.find? (fun x => x.id == (sortedContainer cards B)[k].id) =
        some ((sortedContainer cards B)[k]) :=
      find?_key_self (fun x => x.id) hnd (mem_sortedContainer.mp hd).1
    rw [← hcs, findCard, find?_map_id _ (applyCardUpd_id _) hfd,
      apply_crossUps_tgt cards cid B t c.list_id hnd k hk (hTne _ hd)]
    rfl
  · intro k hk
    have hd := List.getElem_mem hk
    have hfd : cards.find? (fun x => x.id == (sourceSibs cards c.list_id cid)[k].id) =
        some ((sourceSibs cards c.list_id cid)[k]) :=
      find?_key_self (fun x => x.id) hnd (mem_sourceSibs.mp hd).1
    have hnotT : ∀ d ∈ sortedContainer cards B,
        d.id ≠ (sourceSibs cards c.list_id cid)[k].id := by
      intro d hds he
      obtain ⟨hdc, hdB⟩ := mem_sortedContainer.mp hds
      obtain ⟨hsc, hsl, _⟩ := mem_sourceSibs.mp hd
      have hdx : d = (sourceSibs cards c.list_id cid)[k] := key_unique _ hnd hdc hsc he
      exact hB (by rw [← hsl, ← hdx, hdB])
    rw [← hcs, findCard, find?_map_id _ (applyCardUpd_id _) hfd,
      apply_crossUps_src cards cid B t c.list_id hnd k hk hnotT]

/-- Witness for C2: the spec's example, list A = [a0,a1,a2] (ids 10,11,12),
list B = [b0,b1] (ids 20,21), moving a1 to B at index 1. -/
theorem crossMove_correct_witness :
    findCard [⟨10, "a0", 0, 1⟩, ⟨11, "a1", 1, 2⟩, ⟨12, "a2", 1, 1⟩,
        ⟨20, "b0", 0, 2⟩, ⟨21, "b1", 2, 2⟩] 11 = some ⟨11, "a1", 1, 2⟩ ∧
      (∀ (k : Nat) (hk : k < (sortedContainer [⟨10, "a0", 0, 1⟩, ⟨11, "a1", 1, 1⟩,
          ⟨12, "a2", 2, 1⟩, ⟨20, "b0", 0, 2⟩, ⟨21, "b1", 1, 2⟩] 2).length),
        findCard [⟨10, "a0", 0, 1⟩, ⟨11, "a1", 1, 2⟩, ⟨12, "a2", 1, 1⟩,
            ⟨20, "b0", 0, 2⟩, ⟨21, "b1", 2, 2⟩]
          (sortedContainer [⟨10, "a0", 0, 1⟩, ⟨11, "a1", 1, 1⟩, ⟨12, "a2", 2, 1⟩,
            ⟨20, "b0", 0, 2⟩, ⟨21, "b1", 1, 2⟩] 2)[k].id =
          some { (sortedContainer [⟨10, "a0", 0, 1⟩, ⟨11, "a1", 1, 1⟩, ⟨12, "a2", 2, 1⟩,
            ⟨20, "b0", 0, 2⟩, ⟨21, "b1", 1, 2⟩] 2)[k] with
            position := if 1 ≤ k then k + 1 else k }) ∧
      (∀ (k : Nat) (hk : k < (sourceSibs [⟨10, "a0", 0, 1⟩, ⟨11, "a1", 1, 1⟩,
          ⟨12, "a2", 2, 1⟩, ⟨20, "b0", 0, 2⟩, ⟨21, "b1", 1, 2⟩] 1 11).length),
        findCard [⟨10, "a0", 0, 1⟩, ⟨11, "a1", 1, 2⟩, ⟨12, "a2", 1, 1⟩,
            ⟨20, "b0", 0, 2⟩, ⟨21, "b1", 2, 2⟩]
          (sourceSibs [⟨10, "a0", 0, 1⟩, ⟨11, "a1", 1, 1⟩, ⟨12, "a2", 2, 1⟩,
            ⟨20, "b0", 0, 2⟩, ⟨21, "b1", 1, 2⟩] 1 11)[k].id =
          some { (sourceSibs [⟨10, "a0", 0, 1⟩, ⟨11, "a1", 1, 1⟩, ⟨12, "a2", 2, 1⟩,
            ⟨20, "b0", 0, 2⟩, ⟨21, "b1", 1, 2⟩] 1 11)[k] with position := k }) :=
  crossMove_correct
    [⟨10, "a0", 0, 1⟩, ⟨11, "a1", 1, 1⟩, ⟨12, "a2", 2, 1⟩, ⟨20, "b0", 0, 2⟩, ⟨21, "b1", 1, 2⟩]
    11 2 1 ⟨11, "a1", 1, 1⟩ (by decide) (by decide) (by decide) (by decide) (by decide)
    [⟨11, 2, 1⟩, ⟨20, 2, 0⟩, ⟨21, 2, 2⟩, ⟨10, 1, 0⟩, ⟨12, 1, 1⟩]
    [⟨10, "a0", 0, 1⟩, ⟨11, "a1", 1, 2⟩, ⟨12, "a2", 1, 1⟩, ⟨20, "b0", 0, 2⟩, ⟨21, "b1", 2, 2⟩]
    (by decide)

/-!  ### Index arithmetic of the splice rotation -/

theorem insertAt_length (j : Nat) (x : α) (m : List α) :
    (insertAt j x m).length = m.length + 1 := by
  simp only [insertAt, List.length_append, List.length_take, List.length_cons,
    List.length_drop]
  omega

theorem insertAt_getElem_lt :
    ∀ (m : List α) (x : α) (j k : Nat), k < j → j ≤ m.length →
      ∀ (h1 : k < (insertAt j x m).length) (h2 : k < m.length),
        (insertAt j x m)[k] = m[k]
  | m, x, j + 1, 0, _, hj, h1, h2 => by
    cases m with
    | nil => exact absurd hj (by simp)
    | cons a mt => rfl
  | m, x, j + 1, k + 1, hk, hj, h1, h2 => by
    cases m with
    | nil => exact absurd hj (by simp)
    | cons a mt =>
      have hj' : j ≤ mt.length := by simpa using hj
      have h2' : k < mt.length := by simpa using h2
      have h1' : k < (insertAt j x mt).length := by
        rw [insertAt_length]
        omega
      show (a :: insertAt j x mt)[k + 1] = (a :: mt)[k + 1]
      rw [List.getElem_cons_succ, List.getElem_cons_succ]
      exact insertAt_getElem_lt mt x j k (by omega) hj' h1' h2'

theorem insertAt_getElem_self :
    ∀ (m : List α) (x : α) (j : Nat), j ≤ m.length →
      ∀ (h1 : j < (insertAt j x m).length), (insertAt j x m)[j] = x
  | _, _, 0, _, _ => rfl
  | m, x, j + 1, hj, h1 => by
    cases m with
    | nil => exact absurd hj (by simp)
    | cons a mt =>
      have hj' : j ≤ mt.length := by simpa using hj
      have h1' : j < (insertAt j x mt).length := by
        rw [insertAt_length]
        omega
      show (a :: insertAt j x mt)[j + 1] = x
      rw [List.getElem_cons_succ]
      exact insertAt_getElem_self mt x j hj' h1'

theorem insertAt_getElem_succ :
    ∀ (m : List α) (x : α) (j k : Nat) (hjk : j ≤ k) (hkm : k < m.length)
      (h1 : k + 1 < (insertAt j x m).length), (insertAt j x m)[k + 1] = m[k]
  | m, x, 0, k, hjk, hkm, h1 => by
    have hkm' : k < m.length := hkm
    show (x :: m)[k + 1] = m[k]
    rw [List.getElem_cons_succ]
  | m, x, j + 1, k, hjk, hkm, h1 => by
    cases m with
    | nil => exact absurd hkm (by simp)
    | cons a mt =>
      cases k with
      | zero => exact absurd hjk (by omega)
      | succ kp =>
        have hkm' : kp < mt.length := by simpa using hkm
        have h1' : kp + 1 < (insertAt j x mt).length := by
          rw [insertAt_length]
          omega
        show (a :: insertAt j x mt)[kp + 1 + 1] = (a :: mt)[kp + 1]
        rw [List.getElem_cons_succ, List.getElem_cons_succ]
        exact insertAt_getElem_succ mt x j kp (by omega) hkm' h1'

theorem arrayMove_eq (l : List α) (i j : Nat) (hi : i < l.length) :
    arrayMove l i j = insertAt j (l[i]) (l.eraseIdx i) := by
  rw [arrayMove, List.get?_eq_some.mpr ⟨hi, rfl⟩]
  rfl

theorem length_eraseIdx_of_lt {l : List α} {i : Nat} (hi : i < l.length) :
    (l.eraseIdx i).length = l.length - 1 := by
  rw [List.length_eraseIdx]
  simp [hi]

theorem arrayMove_length (l : List α) (i j : Nat) : (arrayMove l i j).length = l.length :=
  (arrayMove_perm l i j).length_eq

theorem arrayMove_getElem_moved (l : List α) (i j : Nat) (hi : i < l.length)
    (hj : j < l.length) (h1 : j < (arrayMove l i j).length) :
    (arrayMove l i j)[j] = l[i] := by
  rw [List.getElem_of_eq (arrayMove_eq l i j hi) h1]
  exact insertAt_getElem_self _ _ _ (by rw [length_eraseIdx_of_lt hi]; omega) _

theorem arrayMove_getElem_lt (l : List α) (i j k : Nat) (hi : i < l.length)
    (hj : j < l.length) (hk : k < j) (h1 : k < (arrayMove l i j).length)
    (h2 : k < (l.eraseIdx i).length) :
    (arrayMove l i j)[k] = (l.eraseIdx i)[k] := by
  rw [List.getElem_of_eq (arrayMove_eq l i j hi) h1]
  exact insertAt_getElem_lt _ _ _ _ hk (by rw [length_eraseIdx_of_lt hi]; omega) _ h2

theorem arrayMove_getElem_succ (l : List α) (i j k : Nat) (hi : i < l.length)
    (hjk : j ≤ k) (hkm : k < (l.eraseIdx i).length)
    (h1 : k + 1 < (arrayMove l i j).length) :
    (arrayMove l i j)[k + 1] = (l.eraseIdx i)[k] := by
  rw [List.getElem_of_eq (arrayMove_eq l i j hi) h1]
  exact insertAt_getElem_succ _ _ _ _ hjk hkm _

/-!  ### C3: same-container reorder correctness -/

/-- A card found at rotation index `kk` ends with position `kk` after the
same-list move. -/
theorem sameUps_apply_at (cards : List Card) (cid j lid : Nat)
    (hnd : (cards.map (fun x => x.id)).Nodup) (d : Card) (kk : Nat)
    (hkk : kk < (arrayMove (sortedContainer cards lid)
      ((sortedContainer cards lid).findIdx (fun c => c.id == cid)) j).length)
    (hREORD : (arrayMove (sortedContainer cards lid)
      ((sortedContainer cards lid).findIdx (fun c => c.id == cid)) j)[kk] = d) :
    applyCardUpd (sameUps cards cid j lid) d = { d with position := kk } := by
  rw [← hREORD]
  exact apply_sameUps_pos cards cid j lid hnd kk hkk

/-- C3: moving a card within its own dense list to a valid index `j` realizes
the index rotation: the moved card gets position `j`, every other card of the
container moves to `rotPos i j` of its current position (`i` the moved card's
current index), and the update set contains exactly the cards whose position
changed. -/
theorem sameMove_rotation_correct (cards : List Card) (cid j : Nat) (c : Card)
    (hnd : (cards.map (fun x => x.id)).Nodup)
    (hfind : cards.find? (fun x => x.id == cid) = some c)
    (hdense : DenseCards (cardsOf cards c.list_id))
    (hj : j < (cardsOf cards c.list_id).length)
    (ups : List CardUpdate) (cs' : List Card)
    (h : optimisticMoveCard cards cid c.list_id j = some (ups, cs')) :
    findCard cs' cid = some { c with position := j } ∧
      (∀ d ∈ cards, d.list_id = c.list_id → d.id ≠ cid →
        findCard cs' d.id = some { d with position := rotPos c.position j d.position }) ∧
      (∀ u ∈ ups, ∃ d ∈ cards, d.list_id = c.list_id ∧ u.id = d.id ∧
        u.list_id = d.list_id ∧ u.position ≠ d.position) ∧
      (∀ d ∈ cards, d.list_id = c.list_id → d.id ≠ cid →
        ((∃ u ∈ ups, u.id = d.id) ↔ rotPos c.position j d.position ≠ d.position)) ∧
      ((∃ u ∈ ups, u.id = cid) ↔ j ≠ c.position) := by
  have hcid : c.id = cid := by simpa using List.find?_some hfind
  have hcmem : c ∈ cards := List.mem_of_find?_eq_some hfind
  rw [optimisticMoveCard_same_eq cards cid j c hfind] at h
  obtain ⟨hups, hcs⟩ := Prod.mk.injEq .. ▸ Option.some.injEq .. ▸ h
  have hndL : ((sortedContainer cards c.list_id).map (fun x => x.id)).Nodup :=
    nodup_ids_sortCards _ hnd
  have hlenL : (sortedContainer cards c.list_id).length = (cardsOf cards c.list_id).length :=
    List.length_insertionSort _ _
  have hjL : j < (sortedContainer cards c.list_id).length := by omega
  have hcLC : c ∈ sortedContainer cards c.list_id := mem_sortedContainer.mpr ⟨hcmem, rfl⟩
  obtain ⟨iidx, hi, hLCi⟩ := List.mem_iff_getElem.mp hcLC
  have hciidx : c.position = iidx := by
    have h1 := position_sortCards_getElem hdense hi
    have h2 : (sortedContainer cards c.list_id)[iidx].position = iidx := h1
    rw [hLCi] at h2
    exact h2
  have hidx : (sortedContainer cards c.list_id).findIdx (fun x => x.id == cid) = iidx :=
    findIdx_key (fun x => x.id) cid _ hndL iidx hi (by rw [hLCi]; exact hcid)
  have hform : arrayMove (sortedContainer cards c.list_id)
      ((sortedContainer cards c.list_id).findIdx (fun x => x.id == cid)) j =
      arrayMove (sortedContainer cards c.list_id) iidx j := by
    rw [hidx]
  have herlen : ((sortedContainer cards c.list_id).eraseIdx iidx).length =
      (sortedContainer cards c.list_id).length - 1 := length_eraseIdx_of_lt hi
  have hamlen : (arrayMove (sortedContainer cards c.list_id) iidx j).length =
      (sortedContainer cards c.list_id).length := arrayMove_length _ _ _
  -- the moved card lands at index j
  have hmoved : (arrayMove (sortedContainer cards c.list_id) iidx j).get? j = some c := by
    refine List.get?_eq_some.mpr ⟨by omega, ?_⟩
    show (arrayMove (sortedContainer cards c.list_id) iidx j)[j] = c
    rw [arrayMove_getElem_moved _ iidx j hi hjL (by omega)]
    exact hLCi
  -- every other container card lands at its rotation index
  have hregion : ∀ d ∈ cards, d.list_id = c.list_id → d.id ≠ cid →
      ∃ kk, kk < (sortedContainer cards c.list_id).length ∧
        (arrayMove (sortedContainer cards c.list_id) iidx j).get? kk = some d ∧
        rotPos c.position j d.position = kk := by
    intro d hdc hdl hdne
    have hdLC : d ∈ sortedContainer cards c.list_id := mem_sortedContainer.mpr ⟨hdc, hdl⟩
    obtain ⟨k, hk, hLCk⟩ := List.mem_iff_getElem.mp hdLC
    have hkq : d.position = k := by
      have h1 := position_sortCards_getElem hdense hk
      have h2 : (sortedContainer cards c.list_id)[k].position = k := h1
      rw [hLCk] at h2
      exact h2
    have hkiidx : k ≠ iidx := by
      intro he
      apply hdne
      subst he
      have hdc2 : d = c := hLCk.symm.trans hLCi
      rw [hdc2, hcid]
    by_cases hc1 : k < iidx
    · by_cases hc2 : k < j
      · refine ⟨k, by omega, List.get?_eq_some.mpr ⟨by omega, ?_⟩, ?_⟩
        · show (arrayMove (sortedContainer cards c.list_id) iidx j)[k] = d
          rw [arrayMove_getElem_lt _ iidx j k hi hjL hc2 (by omega) (by omega),
            List.getElem_eraseIdx, dif_pos hc1]
          exact hLCk
        · rw [hciidx, hkq, rotPos, if_neg (by omega), if_neg (by omega)]
      · refine ⟨k + 1, by omega, List.get?_eq_some.mpr ⟨by omega, ?_⟩, ?_⟩
        · show (arrayMove (sortedContainer cards c.list_id) iidx j)[k + 1] = d
          rw [arrayMove_getElem_succ _ iidx j k hi (by omega) (by omega) (by omega),
            List.getElem_eraseIdx, dif_pos hc1]
          exact hLCk
        · rw [hciidx, hkq, rotPos, if_pos (by omega)]
    · have hik : iidx < k := by omega
      obtain ⟨kp, rfl⟩ : ∃ kp, k = kp + 1 := ⟨k - 1, by omega⟩
      by_cases hc2 : kp + 1 ≤ j
      · refine ⟨kp, by omega, List.get?_eq_some.mpr ⟨by omega, ?_⟩, ?_⟩
        · show (arrayMove (sortedContainer cards c.list_id) iidx j)[kp] = d
          rw [arrayMove_getElem_lt _ iidx j kp hi hjL (by omega) (by omega) (by omega),
            List.getElem_eraseIdx, dif_neg (by omega)]
          exact hLCk
        · rw [hciidx, hkq, rotPos, if_neg (by omega), if_pos (by omega)]
          omega
      · refine ⟨kp + 1, by omega, List.get?_eq_some.mpr ⟨by omega, ?_⟩, ?_⟩
        · show (arrayMove (sortedContainer cards c.list_id) iidx j)[kp + 1] = d
          rw [arrayMove_getElem_succ _ iidx j kp hi (by omega) (by omega) (by omega),
            List.getElem_eraseIdx, dif_neg (by omega)]
          exact hLCk
        · rw [hciidx, hkq, rotPos, if_neg (by omega), if_neg (by omega)]
  -- the new state, per landing index
  have hmain : ∀ (d : Card), d ∈ cards → ∀ kk, kk < (sortedContainer cards c.list_id).length →
      (arrayMove (sortedContainer cards c.list_id) iidx j).get? kk = some d →
      findCard cs' d.id = some { d with position := kk } := by
    intro d hdc kk hkkn hg
    obtain ⟨hkb, hkv⟩ := List.get?_eq_some.mp hg
    have hfd := find?_key_self (fun x => x.id) hnd hdc
    have hkk' : kk < (arrayMove (sortedContainer cards c.list_id)
        ((sortedContainer cards c.list_id).findIdx (fun x => x.id == cid)) j).length := by
      rw [hform]
      exact hkb
    rw [← hcs, findCard, find?_map_id _ (applyCardUpd_id _) hfd,
      sameUps_apply_at cards cid j c.list_id hnd d kk hkk'
        ((List.getElem_of_eq hform hkk').trans hkv)]
  -- the update batch, per landing index
  have hfindups : ∀ (d : Card), ∀ kk, kk < (sortedContainer cards c.list_id).length →
      (arrayMove (sortedContainer cards c.list_id) iidx j).get? kk = some d →
      ((∃ u ∈ ups, u.id = d.id) ↔ d.position ≠ kk) := by
    intro d kk hkkn hg
    obtain ⟨hkb, hkv⟩ := List.get?_eq_some.mp hg
    have hndR : ((arrayMove (sortedContainer cards c.list_id)
        ((sortedContainer cards c.list_id).findIdx (fun x => x.id == cid)) j).map
          (fun x => x.id)).Nodup := nodup_ids_reordered cards cid j c.list_id hnd
    have hkk' : kk < (arrayMove (sortedContainer cards c.list_id)
        ((sortedContainer cards c.list_id).findIdx (fun x => x.id == cid)) j).length := by
      rw [hform]
      exact hkb
    have hfr := find?_reorderUpds_self 0 _ hndR kk hkk'
    rw [Nat.zero_add] at hfr
    have hRd : (arrayMove (sortedContainer cards c.list_id)
        ((sortedContainer cards c.list_id).findIdx (fun x => x.id == cid)) j)[kk] = d :=
      (List.getElem_of_eq hform hkk').trans hkv
    rw [hRd] at hfr
    rw [← hups]
    constructor
    · intro ⟨u, hu, huid⟩ hpos
      rw [if_pos hpos] at hfr
      have : (sameUps cards cid j c.list_id).find? (fun u => u.id == d.id) = none := hfr
      rw [List.find?_eq_none] at this
      exact this u hu (by simpa using huid)
    · intro hpos
      rw [if_neg hpos] at hfr
      have hsome : ((sameUps cards cid j c.list_id).find?
          (fun u => u.id == d.id)).isSome = true := by
        rw [show (sameUps cards cid j c.list_id).find? (fun u => u.id == d.id) =
          some ⟨d.id, d.list_id, kk⟩ from hfr]
        rfl
      obtain ⟨u, hu, hpu⟩ := List.find?_isSome.mp hsome
      exact ⟨u, hu, by simpa using hpu⟩
  refine ⟨?_, ?_, ?_, ?_, ?_⟩
  · rw [← hcid]
    exact hmain c hcmem j hjL hmoved
  · intro d hdc hdl hdne
    obtain ⟨kk, hkkn, hg, hrot⟩ := hregion d hdc hdl hdne
    rw [hrot]
    exact hmain d hdc kk hkkn hg
  · intro u hu
    rw [← hups] at hu
    obtain ⟨d, hd, h1, h2, h3⟩ := mem_reorderUpds _ _ u hu
    obtain ⟨hdc, hdl⟩ := mem_reordered_iff.mp hd
    exact ⟨d, hdc, hdl, h1, h2, h3⟩
  · intro d hdc hdl hdne
    obtain ⟨kk, hkkn, hg, hrot⟩ := hregion d hdc hdl hdne
    rw [hrot]
    have := hfindups d kk hkkn hg
    rw [this]
    omega
  · have := hfindups c j hjL hmoved
    rw [hcid] at this
    rw [this]
    omega

/-- Witness for C3: the spec's example, list [x0,x1,x2,x3] (ids 10..13),
moving x3 to index 1; the batch holds exactly x3, x1, x2, and x0 is omitted. -/
theorem sameMove_rotation_correct_witness :
    findCard [⟨10, "x0", 0, 1⟩, ⟨11, "x1", 2, 1⟩, ⟨12, "x2", 3, 1⟩, ⟨13, "x3", 1, 1⟩] 13 =
        some ⟨13, "x3", 1, 1⟩ ∧
      (∀ d ∈ [(⟨10, "x0", 0, 1⟩ : Card), ⟨11, "x1", 1, 1⟩, ⟨12, "x2", 2, 1⟩, ⟨13, "x3", 3, 1⟩],
        d.list_id = 1 → d.id ≠ 13 →
        findCard [⟨10, "x0", 0, 1⟩, ⟨11, "x1", 2, 1⟩, ⟨12, "x2", 3, 1⟩, ⟨13, "x3", 1, 1⟩] d.id =
          some { d with position := rotPos 3 1 d.position }) ∧
      (∀ u ∈ ([⟨13, 1, 1⟩, ⟨11, 1, 2⟩, ⟨12, 1, 3⟩] : List CardUpdate),
        ∃ d ∈ [(⟨10, "x0", 0, 1⟩ : Card), ⟨11, "x1", 1, 1⟩, ⟨12, "x2", 2, 1⟩, ⟨13, "x3", 3, 1⟩],
          d.list_id = 1 ∧ u.id = d.id ∧ u.list_id = d.list_id ∧ u.position ≠ d.position) ∧
      (∀ d ∈ [(⟨10, "x0", 0, 1⟩ : Card), ⟨11, "x1", 1, 1⟩, ⟨12, "x2", 2, 1⟩, ⟨13, "x3", 3, 1⟩],
        d.list_id = 1 → d.id ≠ 13 →
        ((∃ u ∈ ([⟨13, 1, 1⟩, ⟨11, 1, 2⟩, ⟨12, 1, 3⟩] : List CardUpdate), u.id = d.id) ↔
          rotPos 3 1 d.position ≠ d.position)) ∧
      ((∃ u ∈ ([⟨13, 1, 1⟩, ⟨11, 1, 2⟩, ⟨12, 1, 3⟩] : List CardUpdate), u.id = 13) ↔
        (1 : Nat) ≠ 3) :=
  sameMove_rotation_correct
    [⟨10, "x0", 0, 1⟩, ⟨11, "x1", 1, 1⟩, ⟨12, "x2", 2, 1⟩, ⟨13, "x3", 3, 1⟩]
    13 1 ⟨13, "x3", 3, 1⟩ (by decide) (by decide) (by decide) (by decide)
    [⟨13, 1, 1⟩, ⟨11, 1, 2⟩, ⟨12, 1, 3⟩]
    [⟨10, "x0", 0, 1⟩, ⟨11, "x1", 2, 1⟩, ⟨12, "x2", 3, 1⟩, ⟨13, "x3", 1, 1⟩] (by decide)
